import Mathlib

/-!
# Compression-session controller of `frontend/src/App.jsx`

A shallow embedding of the React component `App`: its five `useState` cells, the
`useEffect` that animates the ratio, and the two handlers `handleCompress` and
`handleDecompress`, together with the browser pieces they rely on (the interval
table, the in-flight `axios.post` calls, binary64 arithmetic).

JavaScript numbers are modelled by the exact rational value of a finite binary64;
every arithmetic operation of the source is followed by the rounding `fl`.
Infinities and NaN are not modelled: with sizes that are byte counts no operation
below leaves the finite range.
-/

namespace App

/-! ## binary64 arithmetic -/

/-- Nearest integer, ties to the even one (the IEEE 754 default rounding). -/
def roundHalfEven (t : ℚ) : ℤ :=
  let f := ⌊t⌋
  if t - f < 1 / 2 then f
  else if 1 / 2 < t - f then f + 1
  else if f % 2 = 0 then f else f + 1

/-- Exponent of the binade of `x`, clamped below at the subnormal range. -/
def binade (x : ℚ) : ℤ := max (Int.log 2 |x|) (-1022)

/-- Spacing of binary64 values around `x` (53 significant bits). -/
def ulp (x : ℚ) : ℚ := (2 : ℚ) ^ (binade x - 52)

/-- Rounding of an exact value to the nearest binary64, ties to even. -/
def fl (x : ℚ) : ℚ := roundHalfEven (x / ulp x) * ulp x

/-- JavaScript `a / b` on numbers (`b` nonzero). -/
def jsDiv (a b : ℚ) : ℚ := fl (a / b)

/-- JavaScript `a - b` on numbers. -/
def jsSub (a b : ℚ) : ℚ := fl (a - b)

/-- JavaScript `a * b` on numbers. -/
def jsMul (a b : ℚ) : ℚ := fl (a * b)

/-- JavaScript `a + b` on numbers. -/
def jsAdd (a b : ℚ) : ℚ := fl (a + b)

/-- Decimal value written by `x.toFixed(2)`: the sign is split off, then the integer
`n` with `n / 100` closest to `|x|` is taken, the larger one on a tie; from `1e21` on
`toFixed` falls back to `String(x)`, which denotes `x` itself. -/
def toFixed2 (x : ℚ) : ℚ :=
  if (10 : ℚ) ^ 21 ≤ |x| then x
  else if x < 0 then -((⌊-x * 100 + 1 / 2⌋ : ℤ) : ℚ) / 100
  else ((⌊x * 100 + 1 / 2⌋ : ℤ) : ℚ) / 100

/-- JavaScript `parseFloat` on a decimal numeral: the nearest binary64. -/
def parseFloat (decimal : ℚ) : ℚ := fl decimal

/-- JavaScript `v || 0` for a numeric field that may be missing (`undefined`):
every falsy value, the number zero included, yields `0`. -/
def orZero : Option ℚ → ℚ
  | none => 0
  | some v => if v = 0 then 0 else v

/-- The expression bound to `calculatedRatio` in `handleCompress`. -/
def calculatedRatio (originalSize compressedSize : ℚ) : ℚ :=
  if originalSize > 0 then
    parseFloat (toFixed2 (jsMul (jsSub 1 (jsDiv compressedSize originalSize)) 100))
  else 0

/-! ## Strings -/

/-- Code points removed by `String.prototype.trim`: ECMAScript `WhiteSpace`
and `LineTerminator`. -/
def isJsWhiteSpace (c : Char) : Bool :=
  c.val.toNat ∈ [0x9, 0xA, 0xB, 0xC, 0xD, 0x20, 0xA0, 0x1680, 0x2028, 0x2029,
    0x202F, 0x205F, 0x3000, 0xFEFF] || (0x2000 ≤ c.val.toNat && c.val.toNat ≤ 0x200A)

/-- JavaScript `s.trim()`. -/
def jsTrim (s : String) : String :=
  ⟨((s.data.dropWhile isJsWhiteSpace).reverse.dropWhile isJsWhiteSpace).reverse⟩

/-- Truthiness of a string-valued property that may be absent. -/
def truthy : Option String → Bool
  | none => false
  | some s => s != ""

/-! ## Data model -/

/-- The `stats` object of a successful result. -/
structure Stats where
  original : ℚ
  compressed : ℚ
  time : Option ℚ
deriving DecidableEq

/-- The object stored in `lastResult`; `none` is an absent property. -/
structure Result where
  originalText : Option String
  compressedB64 : Option String
  stats : Option Stats
  ratio : Option ℚ
  error : Option String
deriving DecidableEq

/-- Body `res.data` of a `/compress` response; `none` is a missing field. -/
structure CompressData where
  compressed_b64 : Option String
  original_size : Option ℚ
  compressed_size : Option ℚ
  compression_time_ms : Option ℚ
deriving DecidableEq

/-- Body `res.data` of a `/decompress` response. -/
structure DecompressData where
  decompressed_text : Option String
deriving DecidableEq

/-- Settlement of an `axios.post` promise. -/
inductive Reply (α : Type) where
  | ok (data : α)
  | failed
deriving DecidableEq

/-- A request handed to `axios.post`. -/
inductive Request where
  | compress (text : String)
  | decompress (compressed_b64 : String)
deriving DecidableEq

/-- The `useState` cells of `App`. -/
structure Session where
  text : String
  lastResult : Option Result
  decompressed : Option String
  animatedRatio : ℚ
  isLoading : Bool
deriving DecidableEq

/-- An armed `setInterval` together with the variables its callback closes over. -/
structure Timer where
  id : ℕ
  start : ℚ
  newRatio : ℚ
deriving DecidableEq

/-- The component together with its environment. -/
structure World where
  ui : Session
  /-- intervals armed in the browser -/
  timers : List Timer
  /-- next handle `setInterval` returns -/
  nextTimerId : ℕ
  /-- `animationInterval` held by the cleanup function of the last effect run -/
  cleanup : Option ℕ
  /-- every `axios.post` issued so far, oldest first -/
  requests : List Request
  /-- `text` captured by each `handleCompress` call still awaiting its reply -/
  inflightCompress : List String
  /-- number of `handleDecompress` calls still awaiting their reply -/
  inflightDecompress : ℕ
deriving DecidableEq

/-- State right after mount: the effect has run once on `lastResult = null`. -/
def init : World :=
  { ui := { text := "", lastResult := none, decompressed := some "",
            animatedRatio := 0, isLoading := false },
    timers := [], nextTimerId := 1, cleanup := none, requests := [],
    inflightCompress := [], inflightDecompress := 0 }

/-! ## State setters and browser primitives -/

/-- `setText(s)`, the `onChange` of the textarea. -/
def setText (s : String) (w : World) : World :=
  { w with ui := { w.ui with text := s } }

/-- `setDecompressed(s)`. -/
def setDecompressed (s : Option String) (w : World) : World :=
  { w with ui := { w.ui with decompressed := s } }

/-- `setAnimatedRatio(x)`. -/
def setAnimatedRatio (x : ℚ) (w : World) : World :=
  { w with ui := { w.ui with animatedRatio := x } }

/-- `setIsLoading(b)`. -/
def setIsLoading (b : Bool) (w : World) : World :=
  { w with ui := { w.ui with isLoading := b } }

/-- Browser `clearInterval(id)`; an unknown handle is ignored. -/
def clearInterval (id : ℕ) (w : World) : World :=
  { w with timers := w.timers.filter (fun t => t.id != id) }

/-- Issue `axios.post` with the given request. -/
def post (r : Request) (w : World) : World :=
  { w with requests := w.requests ++ [r] }

/-! ## The ratio animation (`useEffect` on `lastResult`) -/

/-- The cleanup function returned by the previous run of the effect, if any:
`if (animationInterval) clearInterval(animationInterval)`. -/
def effectCleanup (w : World) : World :=
  match w.cleanup with
  | some animationInterval => clearInterval animationInterval w
  | none => w

/-- The body of the effect; the `if` branch arms an interval and returns a cleanup
function, the `else` branch resets `animatedRatio` and returns none.
`parseFloat(lastResult.ratio)` is applied to a number and gives that number back. -/
def effectBody (w : World) : World :=
  match w.ui.lastResult.bind (fun r => r.ratio) with
  | some ratio =>
    { w with
      timers := w.timers ++ [{ id := w.nextTimerId, start := 0, newRatio := ratio }],
      nextTimerId := w.nextTimerId + 1,
      cleanup := some w.nextTimerId }
  | none => setAnimatedRatio 0 { w with cleanup := none }

/-- One run of the effect: the previous cleanup first, then the body. -/
def runEffect (w : World) : World := effectBody (effectCleanup w)

/-- The state setter `setLastResult` called with a fresh object: the dependency
`[lastResult]` changes, so the effect runs again. -/
def setLastResult (r : Result) (w : World) : World :=
  runEffect { w with ui := { w.ui with lastResult := some r } }

/-- One firing of the interval callback of timer `id`. -/
def tick (id : ℕ) (w : World) : World :=
  match w.timers.find? (fun t => t.id == id) with
  | none => w
  | some t =>
    let start := jsAdd t.start 1
    if start ≥ t.newRatio then
      setAnimatedRatio t.newRatio (clearInterval id w)
    else
      let bump := fun (u : Timer) => if u.id == id then { u with start := start } else u
      setAnimatedRatio start { w with timers := w.timers.map bump }

/-! ## Handlers -/

/-- The object stored when the text is blank. -/
def inputRequired : Result :=
  { originalText := none, compressedB64 := some "Input required. Please enter text.",
    stats := none, ratio := none, error := some "Input required." }

/-- The object stored when the compress request fails. -/
def compressionFailed : Result :=
  { originalText := none,
    compressedB64 := some "Error: Compression failed. Check backend server status.",
    stats := none, ratio := none, error := some "Compression failed." }

/-- The object `newResult` built from a response body. -/
def newResult (text : String) (data : CompressData) : Result :=
  let originalSize := orZero data.original_size
  let compressedSize := orZero data.compressed_size
  { originalText := some text,
    compressedB64 := data.compressed_b64,
    stats := some { original := originalSize, compressed := compressedSize,
                    time := data.compression_time_ms },
    ratio := some (calculatedRatio originalSize compressedSize),
    error := none }

/-- The part of `handleCompress` that runs up to the `await`. -/
def handleCompress (w : World) : World :=
  if jsTrim w.ui.text = "" then
    setLastResult inputRequired w
  else
    let w1 := post (.compress w.ui.text) (setIsLoading true w)
    { w1 with inflightCompress := w1.inflightCompress ++ [w.ui.text] }

/-- The rest of `handleCompress`, run when the awaited promise settles; `text` is the
value the call closed over. -/
def handleCompressReply (text : String) (reply : Reply CompressData) (w : World) : World :=
  let w1 := match reply with
    | .ok data => setDecompressed (some "") (setLastResult (newResult text data) w)
    | .failed => setLastResult compressionFailed w
  setIsLoading false w1

/-- The text `handleDecompress` shows instead of sending a request. -/
def guardMessage : String := "No valid compressed data available!"

/-- The text shown when the decompress request fails. -/
def decompressFailedMessage : String :=
  "Error: Decompression failed. Check backend server status."

/-- The part of `handleDecompress` that runs up to the `await`. -/
def handleDecompress (w : World) : World :=
  match w.ui.lastResult with
  | none => setDecompressed (some guardMessage) w
  | some lastResult =>
    if !truthy lastResult.compressedB64 || truthy lastResult.error then
      setDecompressed (some guardMessage) w
    else
      let w1 := post (.decompress (lastResult.compressedB64.getD "")) w
      { w1 with inflightDecompress := w1.inflightDecompress + 1 }

/-- The rest of `handleDecompress`, run when the awaited promise settles. -/
def handleDecompressReply (reply : Reply DecompressData) (w : World) : World :=
  match reply with
  | .ok data => setDecompressed data.decompressed_text w
  | .failed => setDecompressed (some decompressFailedMessage) w

/-! ## Event loop -/

/-- What can happen to a mounted `App`. -/
inductive Event where
  | type (s : String)
  | clickCompress
  | clickDecompress
  | compressReply (i : ℕ) (reply : Reply CompressData)
  | decompressReply (reply : Reply DecompressData)
  | timerFires (id : ℕ)
deriving DecidableEq

/-- One turn of the event loop. A click on a disabled button does nothing; a reply
needs a call that is still awaiting it. -/
def step (w : World) : Event → World
  | .type s => setText s w
  | .clickCompress => if w.ui.isLoading then w else handleCompress w
  | .clickDecompress =>
    if w.ui.lastResult.isNone || w.ui.isLoading then w else handleDecompress w
  | .compressReply i reply =>
    match w.inflightCompress.get? i with
    | none => w
    | some text =>
      handleCompressReply text reply
        { w with inflightCompress := w.inflightCompress.eraseIdx i }
  | .decompressReply reply =>
    if w.inflightDecompress = 0 then w
    else handleDecompressReply reply
      { w with inflightDecompress := w.inflightDecompress - 1 }
  | .timerFires id => tick id w

/-- The events of `es` handled one after the other. -/
def run (w : World) (es : List Event) : World := es.foldl step w

/-- States the mounted component can be in. -/
def Reachable (w : World) : Prop := ∃ es, run init es = w

/-! ## Notions used in the statements -/

/-- Events other than the settlement of a compress call. -/
def Event.isCompressReply : Event → Bool
  | .compressReply _ _ => true
  | _ => false

/-- What holds of every state the mounted component can be in. -/
structure Inv (w : World) : Prop where
  timers : w.timers = [] ∨ ∃ t, w.timers = [t] ∧ w.cleanup = some t.id
  fresh : ∀ t ∈ w.timers, t.id < w.nextTimerId
  loading : (w.ui.isLoading = false ∧ w.inflightCompress = []) ∨
    (w.ui.isLoading = true ∧ ∃ text, w.inflightCompress = [text])
  error : ∀ r, w.ui.lastResult = some r →
    r.error = none ∨ r.error = some "Input required." ∨ r.error = some "Compression failed."

/-- An external gateway: what `/compress` answers for a text and what `/decompress`
answers for a payload. -/
structure Gateway where
  compress : String → CompressData
  decompress : String → String

/-- The gateway's decompress inverts its compress. -/
def Gateway.Correct (g : Gateway) : Prop :=
  ∀ text, ∃ p, (g.compress text).compressed_b64 = some p ∧ g.decompress p = text

/-- State after a click on Compress answered by the gateway. -/
def compressVia (g : Gateway) (w : World) : World :=
  step (step w .clickCompress) (.compressReply 0 (.ok (g.compress w.ui.text)))

/-- State after a following click on Decompress, answered by the gateway for the
payload `p` it was sent. -/
def decompressVia (g : Gateway) (p : String) (w : World) : World :=
  step (step w .clickDecompress)
    (.decompressReply (.ok { decompressed_text := some (g.decompress p) }))

/-- A session in which a text was compressed and decompressed again, so that
`decompressed` holds a plaintext. -/
def staleTrace : List Event :=
  [.type "hi", .clickCompress,
   .compressReply 0 (.ok { compressed_b64 := some "KLUv", original_size := none,
                           compressed_size := none, compression_time_ms := none }),
   .clickDecompress, .decompressReply (.ok { decompressed_text := some "hi" })]

/-- A gateway that answers the text `"a"` with the empty payload (and the empty text
with the payload `"a"`), every other text with itself. -/
def swapGateway : Gateway :=
  let swap := fun (s : String) => if s = "a" then "" else if s = "" then "a" else s
  { compress := fun text =>
      { compressed_b64 := some (swap text), original_size := none,
        compressed_size := none, compression_time_ms := none },
    decompress := swap }

/-- Rounding to two decimal places, halves away from zero (the reading of `round2`
in the specification): a function of the exact value. -/
def round2 (x : ℚ) : ℚ :=
  if x < 0 then -((⌊-x * 100 + 1 / 2⌋ : ℤ) : ℚ) / 100
  else ((⌊x * 100 + 1 / 2⌋ : ℤ) : ℚ) / 100

/-- Whether handling `e` in state `w` stores no new `lastResult`: everything but a
click on the enabled Compress button with a blank text and the reply to an awaited
compress call. -/
def storesNothing (w : World) : Event → Bool
  | .clickCompress => w.ui.isLoading || decide (jsTrim w.ui.text ≠ "")
  | .compressReply i _ => (w.inflightCompress.get? i).isNone
  | _ => true

/-- The current `lastResult` stays current throughout `es`. -/
def staysCurrent : World → List Event → Bool
  | _, [] => true
  | w, e :: es => storesNothing w e && staysCurrent (step w e) es

/-- How often the callback of interval `id` fires in `es`. -/
def firings (id : ℕ) : List Event → ℕ
  | [] => 0
  | .timerFires i :: es => (if i = id then 1 else 0) + firings id es
  | _ :: es => firings id es

/-- Number of the tick on which the animation toward `r` stops: the first `n ≥ 1`
with `n ≥ r`. -/
def lastTick (r : ℚ) : ℕ := max 1 ⌈r⌉₊

/-- Progress of the animation of interval `id` toward `r` after `n` firings, `a0`
being the value of `animatedRatio` when the interval was armed. -/
def Animating (id : ℕ) (r a0 : ℚ) (n : ℕ) (w : World) : Prop :=
  if n < lastTick r then
    w.timers = [{ id := id, start := n, newRatio := r }] ∧
    w.ui.animatedRatio = if n = 0 then a0 else n
  else
    w.timers = [] ∧ w.ui.animatedRatio = r

/-- State after the awaited compress call is answered with `data`. -/
def arrival (w : World) (data : CompressData) : World :=
  step w (.compressReply 0 (.ok data))

/-- The ratio stored for a response body. -/
def ratioOf (data : CompressData) : ℚ :=
  calculatedRatio (orZero data.original_size) (orZero data.compressed_size)

/-- A session with the text `"hi"` submitted and the compress call awaiting its
reply. -/
def awaitingReply : World := run init [.type "hi", .clickCompress]

/-- A response for a text of 17 bytes compressed to 10 bytes. -/
def shrunk : CompressData :=
  { compressed_b64 := some "KLUv", original_size := some 17, compressed_size := some 10,
    compression_time_ms := some 3 }

/-- A response for a text of 2 bytes whose compressed form takes 11 bytes. -/
def grown : CompressData :=
  { compressed_b64 := some "KLUv", original_size := some 2, compressed_size := some 11,
    compression_time_ms := some 1 }

/-- A response for 4 bytes compressed to 3. -/
def quarter : CompressData :=
  { compressed_b64 := some "KLUv", original_size := some 4, compressed_size := some 3,
    compression_time_ms := some 1 }

/-- A response for 1 byte compressed to 1. -/
def unchanged : CompressData :=
  { compressed_b64 := some "KLUv", original_size := some 1, compressed_size := some 1,
    compression_time_ms := some 1 }

/-- The session `awaitingReply` answered with `quarter`, one firing of the interval
later, with Compress clicked again. -/
def secondCall : World :=
  step (step (arrival awaitingReply quarter) (.timerFires 1)) .clickCompress

/-! ## Blank input -/

theorem dropWhile_all_of_forall_mem {α : Type} (p : α → Bool) (l : List α)
    (h : ∀ x ∈ l.dropWhile p, p x = true) : l.dropWhile p = [] := by
  induction l with
  | nil => rfl
  | cons a l ih =>
    by_cases ha : p a = true
    · simp only [List.dropWhile_cons_of_pos ha] at h ⊢
      exact ih h
    · have hd : (a :: l).dropWhile p = a :: l := List.dropWhile_cons_of_neg ha
      rw [hd] at h
      exact absurd (h a (List.mem_cons_self a l)) ha

theorem jsTrim_eq_empty_iff (s : String) :
    jsTrim s = "" ↔ ∀ c ∈ s.data, isJsWhiteSpace c = true := by
  unfold jsTrim
  rw [String.ext_iff]
  show ((s.data.dropWhile isJsWhiteSpace).reverse.dropWhile isJsWhiteSpace).reverse = [] ↔ _
  rw [List.reverse_eq_nil_iff]
  constructor
  · intro h
    have h1 : ∀ x ∈ (s.data.dropWhile isJsWhiteSpace).reverse, isJsWhiteSpace x = true :=
      List.dropWhile_eq_nil_iff.mp h
    have h2 : s.data.dropWhile isJsWhiteSpace = [] :=
      dropWhile_all_of_forall_mem _ _ (fun x hx => h1 x (List.mem_reverse.mpr hx))
    exact List.dropWhile_eq_nil_iff.mp h2
  · intro h
    have h2 : s.data.dropWhile isJsWhiteSpace = [] := List.dropWhile_eq_nil_iff.mpr h
    rw [h2]
    rfl

/-! ## Frame properties of the effect -/

@[simp]
theorem runEffect_requests (w : World) : (runEffect w).requests = w.requests := by
  unfold runEffect effectBody effectCleanup
  cases w.cleanup <;> dsimp only <;> split <;> rfl

@[simp]
theorem runEffect_inflightCompress (w : World) :
    (runEffect w).inflightCompress = w.inflightCompress := by
  unfold runEffect effectBody effectCleanup
  cases w.cleanup <;> dsimp only <;> split <;> rfl

@[simp]
theorem runEffect_inflightDecompress (w : World) :
    (runEffect w).inflightDecompress = w.inflightDecompress := by
  unfold runEffect effectBody effectCleanup
  cases w.cleanup <;> dsimp only <;> split <;> rfl

@[simp]
theorem runEffect_lastResult (w : World) :
    (runEffect w).ui.lastResult = w.ui.lastResult := by
  unfold runEffect effectBody effectCleanup
  cases w.cleanup <;> dsimp only <;> split <;> rfl

@[simp]
theorem runEffect_text (w : World) : (runEffect w).ui.text = w.ui.text := by
  unfold runEffect effectBody effectCleanup
  cases w.cleanup <;> dsimp only <;> split <;> rfl

@[simp]
theorem runEffect_decompressed (w : World) :
    (runEffect w).ui.decompressed = w.ui.decompressed := by
  unfold runEffect effectBody effectCleanup
  cases w.cleanup <;> dsimp only <;> split <;> rfl

@[simp]
theorem runEffect_isLoading (w : World) :
    (runEffect w).ui.isLoading = w.ui.isLoading := by
  unfold runEffect effectBody effectCleanup
  cases w.cleanup <;> dsimp only <;> split <;> rfl

/-! ## Validation of the input -/

/-- C2: when the text is empty or made of whitespace only, `handleCompress` issues no
request and leaves none awaiting a reply, stores exactly the object
`{error: "Input required.", compressedB64: "Input required. Please enter text."}`
(no `stats`, no `ratio`, no `originalText`) in `lastResult`, and does not touch
`isLoading`; this holds from every state. -/
theorem handleCompress_blank (w : World)
    (h : ∀ c ∈ w.ui.text.data, isJsWhiteSpace c = true) :
    (handleCompress w).requests = w.requests ∧
    (handleCompress w).inflightCompress = w.inflightCompress ∧
    (handleCompress w).ui.lastResult =
      some { originalText := none,
             compressedB64 := some "Input required. Please enter text.",
             stats := none, ratio := none, error := some "Input required." } ∧
    (handleCompress w).ui.isLoading = w.ui.isLoading := by
  have hb : jsTrim w.ui.text = "" := (jsTrim_eq_empty_iff _).mpr h
  simp [handleCompress, hb, setLastResult, inputRequired]

theorem handleCompress_blank_witness :
    (∀ c ∈ (setText "  \t\n" init).ui.text.data, isJsWhiteSpace c = true) ∧
    (handleCompress (setText "  \t\n" init)).requests = [] ∧
    (handleCompress (setText "  \t\n" init)).ui.isLoading = false :=
  have h : ∀ c ∈ (setText "  \t\n" init).ui.text.data, isJsWhiteSpace c = true := by
    decide
  ⟨h, (handleCompress_blank _ h).1, (handleCompress_blank _ h).2.2.2⟩

/-! ## Invariant of the event loop -/

theorem effectCleanup_timers (w : World)
    (h : w.timers = [] ∨ ∃ t, w.timers = [t] ∧ w.cleanup = some t.id) :
    (effectCleanup w).timers = [] := by
  unfold effectCleanup
  rcases h with h | ⟨t, ht, hc⟩
  · cases hcl : w.cleanup <;> simp [clearInterval, h]
  · simp [hc, clearInterval, ht]

theorem runEffect_armed (w : World) (ratio : ℚ)
    (h : w.timers = [] ∨ ∃ t, w.timers = [t] ∧ w.cleanup = some t.id)
    (hr : w.ui.lastResult.bind (fun r => r.ratio) = some ratio) :
    (runEffect w).timers = [{ id := w.nextTimerId, start := 0, newRatio := ratio }] ∧
    (runEffect w).cleanup = some w.nextTimerId ∧
    (runEffect w).nextTimerId = w.nextTimerId + 1 ∧
    (runEffect w).ui.animatedRatio = w.ui.animatedRatio := by
  have hc := effectCleanup_timers w h
  have hl : (effectCleanup w).ui = w.ui := by
    unfold effectCleanup; cases w.cleanup <;> rfl
  have hn : (effectCleanup w).nextTimerId = w.nextTimerId := by
    unfold effectCleanup; cases w.cleanup <;> rfl
  unfold runEffect effectBody
  rw [hl, hr]
  simp [hc, hn, hl]

theorem runEffect_reset (w : World)
    (h : w.timers = [] ∨ ∃ t, w.timers = [t] ∧ w.cleanup = some t.id)
    (hr : w.ui.lastResult.bind (fun r => r.ratio) = none) :
    (runEffect w).timers = [] ∧ (runEffect w).cleanup = none ∧
    (runEffect w).nextTimerId = w.nextTimerId ∧ (runEffect w).ui.animatedRatio = 0 := by
  have hc := effectCleanup_timers w h
  have hl : (effectCleanup w).ui = w.ui := by
    unfold effectCleanup; cases w.cleanup <;> rfl
  have hn : (effectCleanup w).nextTimerId = w.nextTimerId := by
    unfold effectCleanup; cases w.cleanup <;> rfl
  unfold runEffect effectBody
  rw [hl, hr]
  simp [hc, hn, setAnimatedRatio]

theorem setLastResult_core (w : World)
    (ht : w.timers = [] ∨ ∃ t, w.timers = [t] ∧ w.cleanup = some t.id) (r : Result)
    (hr : r.error = none ∨ r.error = some "Input required." ∨
      r.error = some "Compression failed.") :
    ((setLastResult r w).timers = [] ∨
      ∃ t, (setLastResult r w).timers = [t] ∧ (setLastResult r w).cleanup = some t.id) ∧
    (∀ t ∈ (setLastResult r w).timers, t.id < (setLastResult r w).nextTimerId) ∧
    (∀ r1, (setLastResult r w).ui.lastResult = some r1 →
      r1.error = none ∨ r1.error = some "Input required." ∨
        r1.error = some "Compression failed.") := by
  unfold App.setLastResult
  set w0 : World := { w with ui := { w.ui with lastResult := some r } } with hw0
  have ht0 : w0.timers = [] ∨ ∃ t, w0.timers = [t] ∧ w0.cleanup = some t.id := ht
  refine ⟨?_, ?_, ?_⟩
  · cases hq : w0.ui.lastResult.bind (fun r => r.ratio) with
    | none => exact Or.inl (runEffect_reset w0 ht0 hq).1
    | some q =>
      obtain ⟨h1, h2, -, -⟩ := runEffect_armed w0 q ht0 hq
      exact Or.inr ⟨_, h1, h2⟩
  · cases hq : w0.ui.lastResult.bind (fun r => r.ratio) with
    | none => simp [(runEffect_reset w0 ht0 hq).1]
    | some q =>
      obtain ⟨h1, -, h3, -⟩ := runEffect_armed w0 q ht0 hq
      simp [h1, h3]
  · intro r1 h1
    simp [hw0] at h1
    subst h1
    exact hr

theorem Inv.setLastResult {w : World} (hw : Inv w) (r : Result)
    (hr : r.error = none ∨ r.error = some "Input required." ∨
      r.error = some "Compression failed.") :
    Inv (setLastResult r w) := by
  obtain ⟨h1, h2, h3⟩ := setLastResult_core w hw.timers r hr
  exact ⟨h1, h2, by simpa [App.setLastResult] using hw.loading, h3⟩

theorem Inv.tick {w : World} (hw : Inv w) (id : ℕ) : Inv (tick id w) := by
  unfold App.tick
  rcases hw.timers with h | ⟨t, ht, hc⟩
  · simp only [h, List.find?_nil]
    exact hw
  · by_cases hid : t.id = id
    · have hf : w.timers.find? (fun u => u.id == id) = some t := by
        simp [ht, hid]
      simp only [hf]
      split
      · refine ⟨Or.inl ?_, ?_, hw.loading, hw.error⟩
        · simp [setAnimatedRatio, clearInterval, ht, hid]
        · simp [setAnimatedRatio, clearInterval, ht, hid]
      · refine ⟨Or.inr ⟨{ t with start := jsAdd t.start 1 }, ?_, ?_⟩, ?_, hw.loading,
          hw.error⟩
        · simp [setAnimatedRatio, ht, hid]
        · simpa [setAnimatedRatio] using hc
        · have := hw.fresh t (by simp [ht])
          simpa [setAnimatedRatio, ht, hid] using this
    · have hf : w.timers.find? (fun u => u.id == id) = none := by
        simp [ht, hid]
      simp only [hf]
      exact hw

theorem Inv.init : Inv init := by
  refine ⟨Or.inl rfl, ?_, Or.inl ⟨rfl, rfl⟩, ?_⟩
  · intro t ht
    simp [App.init] at ht
  · intro r hr
    simp [App.init] at hr

theorem Inv.handleCompress {w : World} (hw : Inv w) (hl : w.ui.isLoading = false) :
    Inv (handleCompress w) := by
  unfold App.handleCompress
  by_cases hb : jsTrim w.ui.text = ""
  · rw [if_pos hb]
    exact hw.setLastResult _ (Or.inr (Or.inl rfl))
  · rw [if_neg hb]
    refine ⟨hw.timers, hw.fresh, Or.inr ⟨rfl, w.ui.text, ?_⟩, hw.error⟩
    rcases hw.loading with ⟨-, h⟩ | ⟨h, -⟩
    · simp [post, setIsLoading, h]
    · rw [hl] at h
      exact absurd h (by decide)

theorem Inv.handleDecompress {w : World} (hw : Inv w) : Inv (handleDecompress w) := by
  unfold App.handleDecompress
  split
  · exact ⟨hw.timers, hw.fresh, hw.loading, hw.error⟩
  · split
    · exact ⟨hw.timers, hw.fresh, hw.loading, hw.error⟩
    · exact ⟨hw.timers, hw.fresh, hw.loading, hw.error⟩

theorem handleCompressReply_inv (w : World)
    (ht : w.timers = [] ∨ ∃ t, w.timers = [t] ∧ w.cleanup = some t.id)
    (text : String) (reply : Reply CompressData) (hin : w.inflightCompress = []) :
    Inv (handleCompressReply text reply w) := by
  unfold App.handleCompressReply
  cases reply with
  | ok data =>
    obtain ⟨h1, h2, h3⟩ := setLastResult_core w ht (newResult text data) (Or.inl rfl)
    refine ⟨h1, h2, Or.inl ⟨rfl, ?_⟩, h3⟩
    simp [setIsLoading, setDecompressed, App.setLastResult, hin]
  | failed =>
    obtain ⟨h1, h2, h3⟩ := setLastResult_core w ht compressionFailed (Or.inr (Or.inr rfl))
    refine ⟨h1, h2, Or.inl ⟨rfl, ?_⟩, h3⟩
    simp [setIsLoading, App.setLastResult, hin]

theorem Inv.step {w : World} (hw : Inv w) (e : Event) : Inv (step w e) := by
  cases e with
  | type s => exact ⟨hw.timers, hw.fresh, hw.loading, hw.error⟩
  | clickCompress =>
    simp only [App.step]
    cases hl : w.ui.isLoading with
    | true => simpa using hw
    | false => simpa using hw.handleCompress hl
  | clickDecompress =>
    simp only [App.step]
    split
    · exact hw
    · exact hw.handleDecompress
  | compressReply i reply =>
    simp only [App.step]
    split
    · exact hw
    · rename_i text hget
      rcases hw.loading with ⟨-, h⟩ | ⟨hl, t, h⟩
      · simp [h] at hget
      · have hi : i = 0 := by
          rw [h] at hget
          cases i with
          | zero => rfl
          | succ n => simp at hget
        subst hi
        apply handleCompressReply_inv
        · exact hw.timers
        · simp [h]
  | decompressReply reply =>
    simp only [App.step]
    split
    · exact hw
    · unfold handleDecompressReply
      split <;> exact ⟨hw.timers, hw.fresh, hw.loading, hw.error⟩
  | timerFires id => exact hw.tick id

theorem Inv.run {w : World} (hw : Inv w) (es : List Event) : Inv (run w es) := by
  induction es generalizing w with
  | nil => exact hw
  | cons e es ih => exact ih (hw.step e)

theorem Reachable.inv {w : World} (hw : Reachable w) : Inv w := by
  obtain ⟨es, rfl⟩ := hw
  exact Inv.init.run es

/-! ## Outcomes of `handleCompress` -/

/-- C3: only the success path of `handleCompress` clears `decompressed`. After a text
was compressed and decompressed (`decompressed = "hi"`), a compress of the empty text
stores the `Input required.` outcome, and a compress whose request fails stores the
`Compression failed.` outcome, and in both states `decompressed` still holds `"hi"`. -/
theorem error_outcome_keeps_decompressed :
    (run init (staleTrace ++ [.type "", .clickCompress])).ui.lastResult
      = some inputRequired ∧
    (run init (staleTrace ++ [.type "", .clickCompress])).ui.decompressed = some "hi" ∧
    (run init (staleTrace ++ [.clickCompress, .compressReply 0 .failed])).ui.lastResult
      = some compressionFailed ∧
    (run init (staleTrace ++ [.clickCompress, .compressReply 0 .failed])).ui.decompressed
      = some "hi" := by
  decide

/-- C7: of the three numeric fields of a response only `original_size` and
`compressed_size` are defaulted to `0` when missing; a missing `compression_time_ms`
is stored as it is, so `stats.time` is `undefined` and not `0`. -/
theorem newResult_missing_fields (text : String) (b64 : Option String) :
    (newResult text { compressed_b64 := b64, original_size := none,
                      compressed_size := none, compression_time_ms := none }).stats
      = some { original := 0, compressed := 0, time := none } ∧
    (newResult text { compressed_b64 := b64, original_size := none,
                      compressed_size := none, compression_time_ms := none }).stats
      ≠ some { original := 0, compressed := 0, time := some 0 } := by
  constructor
  · rfl
  · simp [newResult, orZero]

/-! ## Guard of `handleDecompress` -/

/-- C5: in every reachable state where `lastResult` is `null`, or carries an `error`,
or lacks `compressedB64`, `handleDecompress` issues no request, leaves none awaiting a
reply, stores the guard message in `decompressed` and changes neither `lastResult` nor
`isLoading`; and whenever `handleDecompress` does issue a request, `lastResult` exists,
has no `error`, and the request carries its `compressedB64`. -/
theorem handleDecompress_guard (w : World) (hw : Reachable w) :
    ((w.ui.lastResult = none ∨
        ∃ r, w.ui.lastResult = some r ∧ (r.error ≠ none ∨ r.compressedB64 = none)) →
      (handleDecompress w).requests = w.requests ∧
      (handleDecompress w).inflightDecompress = w.inflightDecompress ∧
      (handleDecompress w).ui.decompressed = some "No valid compressed data available!" ∧
      (handleDecompress w).ui.lastResult = w.ui.lastResult ∧
      (handleDecompress w).ui.isLoading = w.ui.isLoading) ∧
    ((handleDecompress w).requests ≠ w.requests →
      ∃ r p, w.ui.lastResult = some r ∧ r.error = none ∧ r.compressedB64 = some p ∧
        (handleDecompress w).requests = w.requests ++ [.decompress p]) := by
  have herr := hw.inv.error
  constructor
  · rintro (h | ⟨r, h, hr⟩)
    · simp [handleDecompress, h, setDecompressed, guardMessage]
    · have ht : (!truthy r.compressedB64 || truthy r.error) = true := by
        rcases hr with hr | hr
        · rcases herr r h with he | he | he
          · exact absurd he hr
          · simp [he, truthy]
          · simp [he, truthy]
        · simp [hr, truthy]
      simp [handleDecompress, h, ht, setDecompressed, guardMessage]
  · intro hreq
    cases h : w.ui.lastResult with
    | none => simp [handleDecompress, h, setDecompressed] at hreq
    | some r =>
      by_cases ht : (!truthy r.compressedB64 || truthy r.error) = true
      · simp [handleDecompress, h, ht, setDecompressed] at hreq
      · have hb : truthy r.compressedB64 = true := by
          cases hx : truthy r.compressedB64 <;> simp [hx] at ht ⊢
        have he : truthy r.error = false := by
          cases hx : truthy r.error <;> simp [hx] at ht ⊢
        have he2 : r.error = none := by
          rcases herr r h with he1 | he1 | he1
          · exact he1
          · simp [he1, truthy] at he
          · simp [he1, truthy] at he
        cases hp : r.compressedB64 with
        | none => simp [hp, truthy] at hb
        | some p =>
          refine ⟨r, p, rfl, he2, hp, ?_⟩
          rw [hp] at hb
          simp [handleDecompress, h, post, hp, hb, he]

theorem handleDecompress_guard_witness :
    (handleDecompress (run init [.clickCompress])).requests = [] ∧
    (handleDecompress (run init [.clickCompress])).ui.decompressed
      = some "No valid compressed data available!" :=
  have h := (handleDecompress_guard (run init [.clickCompress]) ⟨_, rfl⟩).1
    (Or.inr ⟨inputRequired, by decide, Or.inl (by decide)⟩)
  ⟨h.1, h.2.2.1⟩

/-! ## The animation timer -/

/-- C8: in every reachable state at most one interval is armed; and when a result with
a numeric `ratio` is stored, the effect's cleanup has disarmed every interval before
the body arms the new one, so that exactly one interval is armed afterwards: a fresh
one, counting from `0` toward the new ratio. -/
theorem at_most_one_timer (w : World) (hw : Reachable w) :
    w.timers.length ≤ 1 ∧
    ∀ (r : Result) (ratio : ℚ), r.ratio = some ratio →
      (effectCleanup { w with ui := { w.ui with lastResult := some r } }).timers = [] ∧
      (setLastResult r w).timers
        = [{ id := w.nextTimerId, start := 0, newRatio := ratio }] ∧
      ∀ t ∈ w.timers, t.id ≠ w.nextTimerId := by
  have hi := hw.inv
  refine ⟨?_, ?_⟩
  · rcases hi.timers with h | ⟨t, h, -⟩ <;> simp [h]
  · intro r ratio hr
    refine ⟨effectCleanup_timers _ hi.timers, ?_, ?_⟩
    · exact (runEffect_armed { w with ui := { w.ui with lastResult := some r } } ratio
        hi.timers (by simp [hr])).1
    · intro t ht
      exact Nat.ne_of_lt (hi.fresh t ht)

theorem at_most_one_timer_witness :
    (run init staleTrace).timers.length ≤ 1 ∧
    (setLastResult (newResult "yo" ⟨some "KLUv", none, none, none⟩)
      (run init staleTrace)).timers
      = [{ id := (run init staleTrace).nextTimerId, start := 0, newRatio := 0 }] :=
  have h := at_most_one_timer (run init staleTrace) ⟨staleTrace, rfl⟩
  ⟨h.1, (h.2 (newResult "yo" ⟨some "KLUv", none, none, none⟩) 0 (by decide)).2.1⟩

/-! ## The busy flag -/

theorem tick_isLoading (id : ℕ) (w : World) : (tick id w).ui.isLoading = w.ui.isLoading := by
  unfold tick
  split
  · rfl
  · dsimp only
    split <;> rfl

theorem tick_inflightCompress (id : ℕ) (w : World) :
    (tick id w).inflightCompress = w.inflightCompress := by
  unfold tick
  split
  · rfl
  · dsimp only
    split <;> rfl

theorem handleDecompress_isLoading (w : World) :
    (handleDecompress w).ui.isLoading = w.ui.isLoading ∧
    (handleDecompress w).inflightCompress = w.inflightCompress := by
  unfold handleDecompress
  split
  · exact ⟨rfl, rfl⟩
  · split <;> exact ⟨rfl, rfl⟩

/-- While a compress call is awaiting its reply, no event other than that reply
changes `isLoading` or the awaited call. -/
theorem step_keeps_busy (w : World) (e : Event) (text : String)
    (hl : w.ui.isLoading = true) (hin : w.inflightCompress = [text])
    (he : e.isCompressReply = false) :
    (step w e).ui.isLoading = true ∧ (step w e).inflightCompress = [text] := by
  cases e with
  | type s => exact ⟨hl, hin⟩
  | clickCompress => simp [step, hl, hin]
  | clickDecompress =>
    simp only [step]
    split
    · exact ⟨hl, hin⟩
    · rw [(handleDecompress_isLoading w).1, (handleDecompress_isLoading w).2]
      exact ⟨hl, hin⟩
  | compressReply i reply => simp [Event.isCompressReply] at he
  | decompressReply reply =>
    simp only [step]
    split
    · exact ⟨hl, hin⟩
    · unfold handleDecompressReply
      split <;> exact ⟨hl, hin⟩
  | timerFires id =>
    simp only [step]
    rw [tick_isLoading, tick_inflightCompress]
    exact ⟨hl, hin⟩

theorem run_keeps_busy (es : List Event) (w : World) (text : String)
    (hl : w.ui.isLoading = true) (hin : w.inflightCompress = [text])
    (he : ∀ e ∈ es, e.isCompressReply = false) :
    (run w es).ui.isLoading = true ∧ (run w es).inflightCompress = [text] := by
  induction es generalizing w with
  | nil => exact ⟨hl, hin⟩
  | cons e es ih =>
    obtain ⟨h1, h2⟩ := step_keeps_busy w e text hl hin (he e (List.mem_cons_self e es))
    exact ih (step w e) h1 h2 (fun e1 h => he e1 (List.mem_cons_of_mem e h))

theorem handleCompressReply_isLoading (text : String) (reply : Reply CompressData)
    (w : World) : (handleCompressReply text reply w).ui.isLoading = false := by
  unfold handleCompressReply
  rfl

/-- A click on the enabled Compress button with a text that survives `trim`. -/
theorem clickCompress_nonblank (w : World) (hin : w.inflightCompress = [])
    (hl : w.ui.isLoading = false) (hb : jsTrim w.ui.text ≠ "") :
    step w .clickCompress
      = { post (.compress w.ui.text) (setIsLoading true w) with
          inflightCompress := [w.ui.text] } := by
  simp [step, hl, handleCompress, hb, post, setIsLoading, hin]

/-- C4: from every reachable state with the Compress button enabled and a text that
is not blank, a click sets `isLoading` to `true` and then issues the compress request
(the request is posted from a state in which `isLoading` is already `true`); whatever
happens next short of the reply (typing, clicks, decompress replies, timer ticks),
`isLoading` stays `true` and the call stays the only one awaited; and once the reply
arrives, success or failure, `isLoading` is `false` and no call is awaited. -/
theorem busy_spans_compress_call (w : World) (hw : Reachable w)
    (hl : w.ui.isLoading = false)
    (ht : ¬ ∀ c ∈ w.ui.text.data, isJsWhiteSpace c = true) :
    (setIsLoading true w).ui.isLoading = true ∧
    step w .clickCompress
      = { post (.compress w.ui.text) (setIsLoading true w) with
          inflightCompress := [w.ui.text] } ∧
    ∀ es : List Event, (∀ e ∈ es, e.isCompressReply = false) →
      (run (step w .clickCompress) es).ui.isLoading = true ∧
      (run (step w .clickCompress) es).inflightCompress = [w.ui.text] ∧
      ∀ reply : Reply CompressData,
        (step (run (step w .clickCompress) es) (.compressReply 0 reply)).ui.isLoading
          = false ∧
        (step (run (step w .clickCompress) es) (.compressReply 0 reply)).inflightCompress
          = [] := by
  have hb : jsTrim w.ui.text ≠ "" := fun h => ht ((jsTrim_eq_empty_iff _).mp h)
  have hin : w.inflightCompress = [] := by
    rcases hw.inv.loading with ⟨-, h⟩ | ⟨h, -⟩
    · exact h
    · rw [hl] at h
      exact absurd h (by decide)
  have hstep := clickCompress_nonblank w hin hl hb
  refine ⟨rfl, hstep, ?_⟩
  intro es hes
  have h1 : (step w .clickCompress).ui.isLoading = true := by rw [hstep]; rfl
  have h2 : (step w .clickCompress).inflightCompress = [w.ui.text] := by rw [hstep]
  obtain ⟨h3, h4⟩ := run_keeps_busy es _ _ h1 h2 hes
  refine ⟨h3, h4, ?_⟩
  intro reply
  have hi := (hw.inv.step .clickCompress).run es
  have hs0 : ∀ w2 : World, w2.inflightCompress = [w.ui.text] →
      step w2 (.compressReply 0 reply)
        = handleCompressReply w.ui.text reply { w2 with inflightCompress := [] } := by
    intro w2 h
    simp [step, h]
  have hs := hs0 _ h4
  have hi2 := hi.step (.compressReply 0 reply)
  refine ⟨?_, ?_⟩
  · rw [hs]
    exact handleCompressReply_isLoading _ _ _
  · rcases hi2.loading with ⟨-, h⟩ | ⟨h, -⟩
    · exact h
    · rw [hs, handleCompressReply_isLoading] at h
      exact absurd h (by decide)

theorem busy_spans_compress_call_witness :
    (step (run init [.type "hi"]) .clickCompress).requests = [.compress "hi"] ∧
    (run (step (run init [.type "hi"]) .clickCompress)
      [.type "hi!", .clickCompress, .clickDecompress]).ui.isLoading = true ∧
    (step (run (step (run init [.type "hi"]) .clickCompress)
      [.type "hi!", .clickCompress, .clickDecompress])
        (.compressReply 0 .failed)).ui.isLoading = false :=
  have h := busy_spans_compress_call (run init [.type "hi"]) ⟨_, rfl⟩ (by decide)
    (by decide)
  have h2 := h.2.2 [.type "hi!", .clickCompress, .clickDecompress] (by decide)
  ⟨by rw [h.2.1]; rfl, h2.1, (h2.2.2 .failed).1⟩

/-! ## Round trip -/

theorem swapGateway_correct : swapGateway.Correct := by
  intro text
  refine ⟨_, rfl, ?_⟩
  show (fun (s : String) => if s = "a" then "" else if s = "" then "a" else s)
    ((fun (s : String) => if s = "a" then "" else if s = "" then "a" else s) text) = text
  by_cases h1 : text = "a"
  · subst h1
    decide
  · by_cases h2 : text = ""
    · subst h2
      decide
    · simp [h1, h2]

/-- C6 as stated fails: `swapGateway` inverts its own compress, the text `"a"` is
compressed without error to the empty payload, and the following decompress sends
nothing and leaves the guard message, not `"a"`, in `decompressed`. -/
theorem round_trip_empty_payload :
    swapGateway.Correct ∧
    (compressVia swapGateway (run init [.type "a"])).ui.lastResult.bind (·.error) = none ∧
    (compressVia swapGateway (run init [.type "a"])).ui.lastResult.bind (·.compressedB64)
      = some "" ∧
    (step (compressVia swapGateway (run init [.type "a"])) .clickDecompress).requests
      = [.compress "a"] ∧
    (decompressVia swapGateway "" (compressVia swapGateway (run init [.type "a"]))
      ).ui.decompressed = some "No valid compressed data available!" :=
  ⟨swapGateway_correct, by decide, by decide, by decide, by decide⟩

/-- C6, amended: given a gateway whose decompress inverts its compress, from every
reachable state with the Compress button enabled and a text that is not blank, if the
payload the gateway returns for the text is a non-empty string, then after the
compress the outcome holds that text as `originalText` and that payload as
`compressedB64`, a following click on Decompress sends exactly that payload, and
once the gateway has answered `decompressed` is exactly the text. -/
theorem round_trip (g : Gateway) (hg : g.Correct) (w : World) (hw : Reachable w)
    (hl : w.ui.isLoading = false)
    (ht : ¬ ∀ c ∈ w.ui.text.data, isJsWhiteSpace c = true)
    (p : String) (hp : (g.compress w.ui.text).compressed_b64 = some p) (hne : p ≠ "") :
    (compressVia g w).ui.lastResult.bind (·.originalText) = some w.ui.text ∧
    (compressVia g w).ui.lastResult.bind (·.compressedB64) = some p ∧
    (step (compressVia g w) .clickDecompress).requests
      = (compressVia g w).requests ++ [.decompress p] ∧
    (decompressVia g p (compressVia g w)).ui.decompressed = some w.ui.text := by
  have hb : jsTrim w.ui.text ≠ "" := fun h => ht ((jsTrim_eq_empty_iff _).mp h)
  have hin : w.inflightCompress = [] := by
    rcases hw.inv.loading with ⟨-, h⟩ | ⟨h, -⟩
    · exact h
    · rw [hl] at h
      exact absurd h (by decide)
  have hdec : g.decompress p = w.ui.text := by
    obtain ⟨q, hq1, hq2⟩ := hg w.ui.text
    rw [hp] at hq1
    cases hq1
    exact hq2
  have hc : compressVia g w
      = setIsLoading false (setDecompressed (some "")
          (setLastResult (newResult w.ui.text (g.compress w.ui.text))
            { post (.compress w.ui.text) (setIsLoading true w) with
              inflightCompress := [] })) := by
    unfold compressVia
    rw [clickCompress_nonblank w hin hl hb]
    simp [step, handleCompressReply]
  have hlr : (compressVia g w).ui.lastResult
      = some (newResult w.ui.text (g.compress w.ui.text)) := by
    rw [hc]
    simp [setIsLoading, setDecompressed, setLastResult]
  have hld : (compressVia g w).ui.isLoading = false := by
    rw [hc]
    rfl
  have hsd : step (compressVia g w) .clickDecompress
      = { post (.decompress p) (compressVia g w) with
          inflightDecompress := (compressVia g w).inflightDecompress + 1 } := by
    simp [step, hlr, hld, handleDecompress, newResult, hp, truthy, hne]
    rfl
  refine ⟨?_, ?_, ?_, ?_⟩
  · rw [hlr]
    rfl
  · rw [hlr]
    simpa [newResult] using hp
  · rw [hsd]
    rfl
  · unfold decompressVia
    rw [hsd]
    simp [step, handleDecompressReply, setDecompressed, hdec]

theorem round_trip_witness :
    (decompressVia swapGateway "hi" (compressVia swapGateway (run init [.type "hi"]))
      ).ui.decompressed = some "hi" :=
  (round_trip swapGateway swapGateway_correct (run init [.type "hi"]) ⟨_, rfl⟩
    (by decide) (by decide) "hi" (by decide) (by decide)).2.2.2

/-! ## binary64 rounding -/

theorem roundHalfEven_cases (t : ℚ) :
    roundHalfEven t = ⌊t⌋ ∧ t - ⌊t⌋ ≤ 1 / 2 ∨ roundHalfEven t = ⌊t⌋ + 1 ∧ 1 / 2 ≤ t - ⌊t⌋ := by
  unfold roundHalfEven
  dsimp only
  split_ifs with h1 h2 h3
  · exact Or.inl ⟨rfl, h1.le⟩
  · exact Or.inr ⟨rfl, h2.le⟩
  · exact Or.inl ⟨rfl, not_lt.mp h2⟩
  · exact Or.inr ⟨rfl, not_lt.mp h1⟩

theorem abs_sub_roundHalfEven_le (t : ℚ) : |t - roundHalfEven t| ≤ 1 / 2 := by
  have h0 := Int.floor_le t
  have h1 := Int.lt_floor_add_one t
  rcases roundHalfEven_cases t with ⟨h, h2⟩ | ⟨h, h2⟩
  · rw [h, abs_le]
    constructor <;> linarith
  · rw [h, abs_le]
    push_cast
    constructor <;> linarith

theorem roundHalfEven_eq_of_abs_lt (t : ℚ) (m : ℤ) (h : |t - m| < 1 / 2) :
    roundHalfEven t = m := by
  have h1 := abs_sub_roundHalfEven_le t
  rw [abs_lt] at h
  rw [abs_le] at h1
  have h2 : ((roundHalfEven t : ℤ) : ℚ) - m < 1 := by linarith
  have h3 : (-1 : ℚ) < (roundHalfEven t : ℤ) - m := by linarith
  have h4 : roundHalfEven t - m < 1 := by exact_mod_cast h2
  have h5 : -1 < roundHalfEven t - m := by exact_mod_cast h3
  omega

theorem roundHalfEven_intCast (m : ℤ) : roundHalfEven (m : ℚ) = m :=
  roundHalfEven_eq_of_abs_lt _ m (by simp)

theorem roundHalfEven_le_of_le (t : ℚ) (m : ℤ) (h : t ≤ m) : roundHalfEven t ≤ m := by
  have h0 := Int.floor_le t
  have h1 := Int.lt_floor_add_one t
  rcases roundHalfEven_cases t with ⟨h2, -⟩ | ⟨h2, h3⟩
  · rw [h2]
    have : (⌊t⌋ : ℚ) ≤ m := by linarith
    exact_mod_cast this
  · rw [h2]
    have : (⌊t⌋ : ℚ) < m := by linarith
    have : ⌊t⌋ < m := by exact_mod_cast this
    omega

theorem le_roundHalfEven_of_le (t : ℚ) (m : ℤ) (h : (m : ℚ) ≤ t) : m ≤ roundHalfEven t := by
  have h0 : m ≤ ⌊t⌋ := Int.le_floor.mpr h
  rcases roundHalfEven_cases t with ⟨h2, -⟩ | ⟨h2, -⟩ <;> omega

theorem ulp_pos (x : ℚ) : 0 < ulp x := by
  unfold ulp
  positivity

theorem fl_zero : fl 0 = 0 := by
  unfold fl
  simp [roundHalfEven_intCast 0, show roundHalfEven 0 = 0 from by simpa using roundHalfEven_intCast 0]

theorem fl_nonneg {x : ℚ} (h : 0 ≤ x) : 0 ≤ fl x := by
  unfold fl
  have h1 : (0 : ℤ) ≤ roundHalfEven (x / ulp x) :=
    le_roundHalfEven_of_le _ 0 (by simpa using div_nonneg h (ulp_pos x).le)
  have h2 : (0 : ℚ) ≤ roundHalfEven (x / ulp x) := by exact_mod_cast h1
  exact mul_nonneg h2 (ulp_pos x).le

theorem fl_nonpos {x : ℚ} (h : x ≤ 0) : fl x ≤ 0 := by
  unfold fl
  have h1 : roundHalfEven (x / ulp x) ≤ (0 : ℤ) :=
    roundHalfEven_le_of_le _ 0 (by simpa using div_nonpos_of_nonpos_of_nonneg h (ulp_pos x).le)
  have h2 : ((roundHalfEven (x / ulp x) : ℤ) : ℚ) ≤ 0 := by exact_mod_cast h1
  exact mul_nonpos_of_nonpos_of_nonneg h2 (ulp_pos x).le

theorem abs_fl_sub_le (x : ℚ) : |fl x - x| ≤ ulp x / 2 := by
  unfold fl
  have hu := ulp_pos x
  have h := abs_sub_roundHalfEven_le (x / ulp x)
  have e : (roundHalfEven (x / ulp x) : ℚ) * ulp x - x
      = -((x / ulp x - roundHalfEven (x / ulp x)) * ulp x) := by
    field_simp
    ring
  rw [e, abs_neg, abs_mul, abs_of_pos hu]
  calc |x / ulp x - ↑(roundHalfEven (x / ulp x))| * ulp x ≤ 1 / 2 * ulp x :=
        mul_le_mul_of_nonneg_right h hu.le
    _ = ulp x / 2 := by ring

theorem log_abs_eq {x : ℚ} {e : ℤ} (h1 : (2 : ℚ) ^ e ≤ |x|) (h2 : |x| < (2 : ℚ) ^ (e + 1)) :
    Int.log 2 |x| = e := by
  have hpos : 0 < |x| := lt_of_lt_of_le (by positivity) h1
  have ha : e ≤ Int.log 2 |x| := (Int.zpow_le_iff_le_log (by norm_num) hpos).mp (by exact_mod_cast h1)
  have hb : Int.log 2 |x| < e + 1 :=
    (Int.lt_zpow_iff_log_lt (by norm_num) hpos).mp (by exact_mod_cast h2)
  omega

theorem fl_eq_cert (x : ℚ) (e m : ℤ) (he : -1022 ≤ e) (h1 : (2 : ℚ) ^ e ≤ |x|)
    (h2 : |x| < (2 : ℚ) ^ (e + 1)) (hm : |x / (2 : ℚ) ^ (e - 52) - m| < 1 / 2) :
    fl x = m * (2 : ℚ) ^ (e - 52) := by
  have hb : binade x = e := by
    unfold binade
    rw [log_abs_eq h1 h2]
    exact max_eq_left he
  unfold fl ulp
  rw [hb, roundHalfEven_eq_of_abs_lt _ m hm]

theorem binade_sub_le {x : ℚ} (hx : x ≠ 0) (j : ℤ) (hj : -1074 ≤ j)
    (h : |x| < (2 : ℚ) ^ (53 + j)) : binade x - 52 ≤ j := by
  have hpos : 0 < |x| := abs_pos.mpr hx
  have hb : Int.log 2 |x| < 53 + j :=
    (Int.lt_zpow_iff_log_lt (by norm_num) hpos).mp (by exact_mod_cast h)
  unfold binade
  rcases max_cases (Int.log 2 |x|) (-1022) with ⟨h1, _⟩ | ⟨h1, _⟩ <;> rw [h1] <;> omega

theorem div_ulp_int {x : ℚ} (hx : x ≠ 0) (m j : ℤ) (hj : -1074 ≤ j)
    (h : |x| < (2 : ℚ) ^ (53 + j)) :
    ∃ n : ℤ, (m : ℚ) * (2 : ℚ) ^ j / ulp x = n := by
  have hk := binade_sub_le hx j hj h
  refine ⟨m * 2 ^ (j - (binade x - 52)).toNat, ?_⟩
  unfold ulp
  have e1 : ((2 : ℚ) ^ (j - (binade x - 52)).toNat) = (2 : ℚ) ^ (j - (binade x - 52)) := by
    rw [← zpow_natCast]
    congr 1
    omega
  push_cast
  rw [e1, zpow_sub₀ (by norm_num : (2 : ℚ) ≠ 0) j (binade x - 52)]
  ring

theorem fl_le_repr (x : ℚ) (m j : ℤ) (hm : |(m : ℚ)| < 2 ^ 53) (hj : -1074 ≤ j)
    (hx0 : 0 ≤ x) (hxy : x ≤ m * (2 : ℚ) ^ j) : fl x ≤ m * (2 : ℚ) ^ j := by
  rcases eq_or_lt_of_le hx0 with h0 | h0
  · rw [← h0, fl_zero]
    rw [← h0] at hxy
    exact hxy
  · have hp : (0 : ℚ) < (2 : ℚ) ^ j := by positivity
    have hlt : |x| < (2 : ℚ) ^ (53 + j) := by
      rw [abs_of_pos h0, zpow_add₀ (by norm_num : (2 : ℚ) ≠ 0)]
      have hm1 : (m : ℚ) < 2 ^ 53 := (abs_lt.mp hm).2
      calc x ≤ m * (2 : ℚ) ^ j := hxy
        _ < 2 ^ 53 * (2 : ℚ) ^ j := mul_lt_mul_of_pos_right hm1 hp
        _ = (2 : ℚ) ^ (53 : ℤ) * (2 : ℚ) ^ j := by norm_num
    obtain ⟨n, hn⟩ := div_ulp_int h0.ne' m j hj hlt
    have hu := ulp_pos x
    have h1 : x / ulp x ≤ n := by
      rw [← hn]
      exact div_le_div_of_nonneg_right hxy hu.le
    have h2 := roundHalfEven_le_of_le _ n h1
    have h3 : ((roundHalfEven (x / ulp x) : ℤ) : ℚ) ≤ n := by exact_mod_cast h2
    unfold fl
    calc (roundHalfEven (x / ulp x) : ℚ) * ulp x ≤ n * ulp x :=
          mul_le_mul_of_nonneg_right h3 hu.le
      _ = m * (2 : ℚ) ^ j := by
          rw [← hn]
          field_simp

theorem fl_repr (m j : ℤ) (hm : |(m : ℚ)| < 2 ^ 53) (hj : -1074 ≤ j) :
    fl (m * (2 : ℚ) ^ j) = m * (2 : ℚ) ^ j := by
  by_cases h0 : (m : ℚ) * (2 : ℚ) ^ j = 0
  · rw [h0, fl_zero]
  · have hp : (0 : ℚ) < (2 : ℚ) ^ j := by positivity
    have hlt : |(m : ℚ) * (2 : ℚ) ^ j| < (2 : ℚ) ^ (53 + j) := by
      rw [abs_mul, abs_of_pos hp, zpow_add₀ (by norm_num : (2 : ℚ) ≠ 0)]
      calc |(m : ℚ)| * (2 : ℚ) ^ j < 2 ^ 53 * (2 : ℚ) ^ j := mul_lt_mul_of_pos_right hm hp
        _ = (2 : ℚ) ^ (53 : ℤ) * (2 : ℚ) ^ j := by norm_num
    obtain ⟨n, hn⟩ := div_ulp_int h0 m j hj hlt
    have hu := ulp_pos ((m : ℚ) * (2 : ℚ) ^ j)
    unfold fl
    rw [hn, roundHalfEven_intCast, ← hn]
    field_simp

theorem fl_intCast (n : ℤ) (h : |(n : ℚ)| < 2 ^ 53) : fl n = n := by
  have := fl_repr n 0 h (by norm_num)
  simpa using this

theorem abs_fl_sub_le_rel (x : ℚ) :
    |fl x - x| ≤ |x| / 2 ^ 53 + 1 / 2 ^ 1075 := by
  by_cases hx : x = 0
  · subst hx
    rw [fl_zero]
    norm_num
  · have hpos : 0 < |x| := abs_pos.mpr hx
    have h := abs_fl_sub_le x
    have hu : ulp x ≤ |x| / 2 ^ 52 + 1 / 2 ^ 1074 := by
      unfold ulp binade
      rcases max_cases (Int.log 2 |x|) (-1022) with ⟨h1, _⟩ | ⟨h1, _⟩
      · rw [h1, zpow_sub₀ (by norm_num : (2 : ℚ) ≠ 0)]
        have h3 : (2 : ℚ) ^ Int.log 2 |x| ≤ |x| := by
          have := Int.zpow_log_le_self (R := ℚ) (b := 2) (by norm_num) hpos
          exact_mod_cast this
        have h4 : (2 : ℚ) ^ Int.log 2 |x| / 2 ^ (52 : ℤ) ≤ |x| / 2 ^ 52 := by
          have e : ((2 : ℚ) ^ (52 : ℤ)) = 2 ^ 52 := by norm_num
          rw [e]
          exact div_le_div_of_nonneg_right h3 (by positivity)
        have h5 : (0 : ℚ) ≤ 1 / 2 ^ 1074 := by positivity
        linarith
      · rw [h1]
        have e : ((2 : ℚ) ^ ((-1022 : ℤ) - 52)) = 1 / 2 ^ 1074 := by
          rw [show ((-1022 : ℤ) - 52) = -(1074 : ℤ) by norm_num, zpow_neg, one_div]
          norm_num
        rw [e]
        have : (0 : ℚ) ≤ |x| / 2 ^ 52 := by positivity
        linarith
    have e2 : (|x| / 2 ^ 52 + 1 / 2 ^ 1074) / 2 = |x| / 2 ^ 53 + 1 / (2 : ℚ) ^ 1075 := by
      rw [show (2 : ℚ) ^ 53 = 2 ^ 52 * 2 by norm_num, show (2 : ℚ) ^ 1075 = 2 ^ 1074 * 2 by norm_num]
      field_simp
      ring
    linarith

/-! ## The ratio at concrete sizes -/

theorem fl_159_160 : fl (159 / 160) = 8950904259398861 / 2 ^ 53 := by
  have h := fl_eq_cert (159 / 160) (-1) 8950904259398861 (by norm_num)
    (by rw [abs_of_pos (by norm_num)]; norm_num)
    (by rw [abs_of_pos (by norm_num)]; norm_num)
    (by rw [abs_lt]; norm_num)
  rw [h]
  norm_num

theorem fl_62_100 : fl (62 / 100) = 5584463537939415 / 2 ^ 53 := by
  have h := fl_eq_cert (62 / 100) (-1) 5584463537939415 (by norm_num)
    (by rw [abs_of_pos (by norm_num)]; norm_num)
    (by rw [abs_of_pos (by norm_num)]; norm_num)
    (by rw [abs_lt]; norm_num)
  rw [h]
  norm_num

theorem fl_63_100 : fl (63 / 100) = 5674535530486825 / 2 ^ 53 := by
  have h := fl_eq_cert (63 / 100) (-1) 5674535530486825 (by norm_num)
    (by rw [abs_of_pos (by norm_num)]; norm_num)
    (by rw [abs_of_pos (by norm_num)]; norm_num)
    (by rw [abs_lt]; norm_num)
  rw [h]
  norm_num

theorem calculatedRatio_160_159 : calculatedRatio 160 159 = fl (62 / 100) := by
  have h1 : jsDiv 159 160 = 8950904259398861 / 2 ^ 53 := fl_159_160
  have h2 : jsSub 1 (8950904259398861 / 2 ^ 53) = 56294995342131 / 2 ^ 53 := by
    have h := fl_repr 56294995342131 (-53) (by rw [abs_lt]; norm_num) (by norm_num)
    unfold jsSub
    have e : (1 : ℚ) - 8950904259398861 / 2 ^ 53 = ((56294995342131 : ℤ) : ℚ) * 2 ^ (-53 : ℤ) := by
      norm_num
    rw [e, h]
    norm_num
  have h3 : jsMul (56294995342131 / 2 ^ 53) 100 = 5629499534213100 / 2 ^ 53 := by
    have h := fl_repr 5629499534213100 (-53) (by rw [abs_lt]; norm_num) (by norm_num)
    unfold jsMul
    have e : (56294995342131 : ℚ) / 2 ^ 53 * 100 = ((5629499534213100 : ℤ) : ℚ) * 2 ^ (-53 : ℤ) := by
      norm_num
    rw [e, h]
    norm_num
  have h4 : toFixed2 (5629499534213100 / 2 ^ 53) = 62 / 100 := by
    unfold toFixed2
    rw [if_neg (by rw [abs_of_pos (by norm_num)]; norm_num), if_neg (by norm_num)]
    have : ⌊(5629499534213100 : ℚ) / 2 ^ 53 * 100 + 1 / 2⌋ = 62 := by
      rw [Int.floor_eq_iff]
      constructor <;> norm_num
    rw [this]
    norm_num
  unfold calculatedRatio
  rw [if_pos (by norm_num), h1, h2, h3, h4]
  rfl

/-! ## Two-decimal rounding -/

theorem toFixed2_eq_round2 (x : ℚ) (h : |x| < 10 ^ 21) : toFixed2 x = round2 x := by
  unfold toFixed2 round2
  rw [if_neg (not_le.mpr h)]

theorem round2_eq_of_near (x : ℚ) (k : ℤ) (h : |x * 100 - k| < 1 / 2) :
    round2 x = k / 100 := by
  rw [abs_lt] at h
  unfold round2
  split_ifs with hx
  · have : ⌊-x * 100 + 1 / 2⌋ = -k := by
      rw [Int.floor_eq_iff]
      push_cast
      constructor <;> linarith
    rw [this]
    push_cast
    ring
  · have : ⌊x * 100 + 1 / 2⌋ = k := by
      rw [Int.floor_eq_iff]
      constructor <;> linarith
    rw [this]

theorem round2_near (x : ℚ) : ∃ k : ℤ, round2 x = k / 100 ∧ |x * 100 - k| ≤ 1 / 2 := by
  unfold round2
  split_ifs with hx
  · refine ⟨-⌊-x * 100 + 1 / 2⌋, by push_cast; ring, ?_⟩
    have h0 := Int.floor_le (-x * 100 + 1 / 2)
    have h1 := Int.lt_floor_add_one (-x * 100 + 1 / 2)
    rw [abs_le]
    push_cast
    constructor <;> linarith
  · refine ⟨⌊x * 100 + 1 / 2⌋, rfl, ?_⟩
    have h0 := Int.floor_le (x * 100 + 1 / 2)
    have h1 := Int.lt_floor_add_one (x * 100 + 1 / 2)
    rw [abs_le]
    constructor <;> linarith

/-- Rounding error of one operation, scaled by a positive factor of at most `2 ^ 32`. -/
theorem scaled_fl_err (O y B : ℚ) (hO : 0 < O) (hO2 : O ≤ 2 ^ 32) (hy : O * |y| ≤ B) :
    O * |fl y - y| ≤ B / 2 ^ 53 + 1 / 2 ^ 1000 := by
  have h := abs_fl_sub_le_rel y
  have h1 : O * |fl y - y| ≤ O * (|y| / 2 ^ 53 + 1 / 2 ^ 1075) :=
    mul_le_mul_of_nonneg_left h hO.le
  have h2 : O * (|y| / 2 ^ 53 + 1 / 2 ^ 1075) = O * |y| / 2 ^ 53 + O / 2 ^ 1075 := by ring
  have h3 : O * |y| / 2 ^ 53 ≤ B / 2 ^ 53 := div_le_div_of_nonneg_right hy (by positivity)
  have h4 : O / 2 ^ 1075 ≤ 1 / 2 ^ 1000 := by
    rw [div_le_div_iff₀ (by positivity) (by positivity)]
    calc O * 2 ^ 1000 ≤ 2 ^ 32 * 2 ^ 1000 := mul_le_mul_of_nonneg_right hO2 (by positivity)
      _ ≤ 1 * 2 ^ 1075 := by norm_num
  linarith

/-- The value handed to `toFixed` is within `2 ^ (-10) / o` of the exact percentage. -/
theorem ratio_float_error (o c : ℕ) (ho : 0 < o) (ho2 : o < 2 ^ 32) (hc2 : c < 2 ^ 32) :
    (o : ℚ) * |jsMul (jsSub 1 (jsDiv c o)) 100 - (1 - (c : ℚ) / o) * 100| ≤ 1 / 2 ^ 10 := by
  have hO : (0 : ℚ) < o := by exact_mod_cast ho
  have hO2 : (o : ℚ) ≤ 2 ^ 32 := by exact_mod_cast ho2.le
  have hC0 : (0 : ℚ) ≤ c := by exact_mod_cast Nat.zero_le c
  have hC2 : (c : ℚ) ≤ 2 ^ 32 := by exact_mod_cast hc2.le
  set q : ℚ := (c : ℚ) / o with hq
  set a : ℚ := fl q with ha
  set b : ℚ := fl (1 - a) with hb
  set p : ℚ := fl (b * 100) with hp
  have hjs : jsMul (jsSub 1 (jsDiv c o)) 100 = p := rfl
  rw [hjs]
  -- scaled magnitudes
  have hq0 : 0 ≤ q := div_nonneg hC0 hO.le
  have hOq : (o : ℚ) * |q| = c := by
    rw [abs_of_nonneg hq0, hq]
    field_simp
  have h1q : (o : ℚ) * |1 - q| ≤ 2 ^ 32 := by
    have e : (o : ℚ) * |1 - q| = |(o : ℚ) - c| := by
      rw [← abs_of_pos hO, ← abs_mul, abs_of_pos hO, hq]
      congr 1
      field_simp
    rw [e, abs_le]
    constructor <;> linarith
  -- first rounding
  have e1 : (o : ℚ) * |a - q| ≤ 2 ^ 32 / 2 ^ 53 + 1 / 2 ^ 1000 :=
    scaled_fl_err o q (2 ^ 32) hO hO2 (by rw [hOq]; exact hC2)
  -- second rounding
  have t1 : |1 - a| ≤ |1 - q| + |a - q| := by
    have : 1 - a = (1 - q) - (a - q) := by ring
    rw [this]
    exact abs_sub _ _
  have m1 : (o : ℚ) * |1 - a| ≤ 2 ^ 33 := by
    have := mul_le_mul_of_nonneg_left t1 hO.le
    have e : (2 : ℚ) ^ 32 / 2 ^ 53 + 1 / 2 ^ 1000 ≤ 2 ^ 32 := by norm_num
    nlinarith
  have e2 : (o : ℚ) * |b - (1 - a)| ≤ 2 ^ 33 / 2 ^ 53 + 1 / 2 ^ 1000 :=
    scaled_fl_err o (1 - a) (2 ^ 33) hO hO2 m1
  -- third rounding
  have t2 : |b| ≤ |1 - a| + |b - (1 - a)| := by
    have : b = (1 - a) + (b - (1 - a)) := by ring
    nth_rewrite 1 [this]
    exact abs_add _ _
  have m2 : (o : ℚ) * |b * 100| ≤ 2 ^ 41 := by
    have := mul_le_mul_of_nonneg_left t2 hO.le
    have e : (2 : ℚ) ^ 33 / 2 ^ 53 + 1 / 2 ^ 1000 ≤ 2 ^ 33 := by norm_num
    rw [abs_mul, abs_of_pos (by norm_num : (0 : ℚ) < 100)]
    nlinarith
  have e3 : (o : ℚ) * |p - b * 100| ≤ 2 ^ 41 / 2 ^ 53 + 1 / 2 ^ 1000 :=
    scaled_fl_err o (b * 100) (2 ^ 41) hO hO2 m2
  -- total
  have t3 : |p - (1 - q) * 100| ≤ |p - b * 100| + 100 * |b - (1 - a)| + 100 * |a - q| := by
    have e : p - (1 - q) * 100 = (p - b * 100) + (100 * (b - (1 - a)) + 100 * -(a - q)) := by
      ring
    rw [e]
    have h1 := abs_add (p - b * 100) (100 * (b - (1 - a)) + 100 * -(a - q))
    have h2 := abs_add (100 * (b - (1 - a))) (100 * -(a - q))
    rw [abs_mul, abs_mul, abs_neg, abs_of_pos (by norm_num : (0 : ℚ) < 100)] at h2
    linarith
  have := mul_le_mul_of_nonneg_left t3 hO.le
  have k1 : (2 : ℚ) ^ 41 / 2 ^ 53 + 1 / 2 ^ 1000 + 100 * (2 ^ 33 / 2 ^ 53 + 1 / 2 ^ 1000)
      + 100 * (2 ^ 32 / 2 ^ 53 + 1 / 2 ^ 1000) ≤ 1 / 2 ^ 10 := by norm_num
  nlinarith

/-- Off the ties, the two-decimal rounding of the computed value is that of the exact
percentage. -/
theorem toFixed2_ratio (o c : ℕ) (ho : 0 < o) (ho2 : o < 2 ^ 32) (hc2 : c < 2 ^ 32)
    (htie : ¬ ∃ j : ℤ, (1 - (c : ℚ) / o) * 100 = (2 * j + 1) / 200) :
    toFixed2 (jsMul (jsSub 1 (jsDiv c o)) 100) = round2 ((1 - (c : ℚ) / o) * 100) := by
  have hO : (0 : ℚ) < o := by exact_mod_cast ho
  have hO1 : (1 : ℚ) ≤ o := by exact_mod_cast ho
  have hO2 : (o : ℚ) ≤ 2 ^ 32 := by exact_mod_cast ho2.le
  have hC0 : (0 : ℚ) ≤ c := by exact_mod_cast Nat.zero_le c
  have hC2 : (c : ℚ) ≤ 2 ^ 32 := by exact_mod_cast hc2.le
  have herr := ratio_float_error o c ho ho2 hc2
  set p : ℚ := jsMul (jsSub 1 (jsDiv c o)) 100 with hp
  set x : ℚ := (1 - (c : ℚ) / o) * 100 with hx
  obtain ⟨k, hk1, hk2⟩ := round2_near x
  -- the exact value, scaled by `o`, is an integer
  set z : ℤ := 10000 * ((o : ℤ) - c) - k * o with hz
  have hzq : (z : ℚ) = o * (x * 100 - k) := by
    rw [hz, hx]
    push_cast
    field_simp
    ring
  have hz1 : |(z : ℚ)| ≤ o / 2 := by
    rw [hzq, abs_mul, abs_of_pos hO]
    have := mul_le_mul_of_nonneg_left hk2 hO.le
    linarith
  have hz2 : 2 * |z| ≤ o := by
    have : ((2 * |z| : ℤ) : ℚ) ≤ ((o : ℤ) : ℚ) := by
      push_cast
      linarith
    exact_mod_cast this
  have hz3 : 2 * |z| ≠ o := by
    intro h
    apply htie
    rcases abs_cases z with ⟨h1, -⟩ | ⟨h1, -⟩
    · refine ⟨k, ?_⟩
      have h2 : (2 : ℚ) * z = o := by
        rw [h1] at h
        exact_mod_cast h
      rw [hzq] at h2
      have h3 : (o : ℚ) * (2 * (x * 100 - k)) = o * 1 := by linarith
      have h4 := mul_left_cancel₀ hO.ne' h3
      linarith
    · refine ⟨k - 1, ?_⟩
      have h2 : (2 : ℚ) * -z = o := by
        rw [h1] at h
        exact_mod_cast h
      rw [hzq] at h2
      have h3 : (o : ℚ) * (2 * (x * 100 - k)) = o * (-1) := by linarith
      have h4 := mul_left_cancel₀ hO.ne' h3
      push_cast
      linarith
  have hz4 : 2 * |z| + 1 ≤ o := by omega
  have hz5 : (o : ℚ) * |x * 100 - k| ≤ (o - 1) / 2 := by
    have e : (o : ℚ) * |x * 100 - k| = |(z : ℚ)| := by
      rw [hzq, abs_mul, abs_of_pos hO]
    have : ((2 * |z| + 1 : ℤ) : ℚ) ≤ ((o : ℤ) : ℚ) := by exact_mod_cast hz4
    push_cast at this
    rw [e]
    linarith
  -- so the computed value rounds to the same integer
  have hnear : |p * 100 - k| < 1 / 2 := by
    have t : |p * 100 - k| ≤ 100 * |p - x| + |x * 100 - k| := by
      have e : p * 100 - k = 100 * (p - x) + (x * 100 - k) := by ring
      rw [e]
      have := abs_add (100 * (p - x)) (x * 100 - k)
      rwa [abs_mul, abs_of_pos (by norm_num : (0 : ℚ) < 100)] at this
    have t2 := mul_le_mul_of_nonneg_left t hO.le
    have t3 : (o : ℚ) * |p * 100 - k| < o * (1 / 2) := by
      have : (100 : ℚ) * (1 / 2 ^ 10) < 1 / 2 := by norm_num
      nlinarith
    exact lt_of_mul_lt_mul_left t3 hO.le
  have hsmall : |p| < 10 ^ 21 := by
    have hn := abs_nonneg (p * 100 - (k : ℚ))
    have t : |p| ≤ |p - x| + |x| := by
      have e : p = (p - x) + x := by ring
      nth_rewrite 1 [e]
      exact abs_add _ _
    have hxb : (o : ℚ) * |x| ≤ 100 * 2 ^ 32 := by
      have e : (o : ℚ) * |x| = 100 * |(o : ℚ) - c| := by
        rw [← abs_of_pos hO, ← abs_mul, abs_of_pos hO, hx,
          show (100 : ℚ) * |(o : ℚ) - c| = |100 * ((o : ℚ) - c)| by
            rw [abs_mul, abs_of_pos (by norm_num : (0 : ℚ) < 100)]]
        congr 1
        field_simp
        ring
      rw [e]
      have : |(o : ℚ) - c| ≤ 2 ^ 32 := by
        rw [abs_le]
        constructor <;> linarith
      linarith
    have t2 := mul_le_mul_of_nonneg_left t hO.le
    have t4 : (o : ℚ) * |p| ≤ 100 * 2 ^ 32 + 1 := by
      have : (1 : ℚ) / 2 ^ 10 ≤ 1 := by norm_num
      nlinarith
    have t5 : |p| ≤ o * |p| := by
      have := mul_le_mul_of_nonneg_right hO1 (abs_nonneg p)
      linarith
    have : (100 : ℚ) * 2 ^ 32 + 1 < 10 ^ 21 := by norm_num
    linarith
  rw [toFixed2_eq_round2 p hsmall, round2_eq_of_near p k hnear, hk1]

theorem orZero_some (v : ℚ) : orZero (some v) = v := by
  show (if v = 0 then 0 else v) = v
  split_ifs with h
  · exact h.symm
  · rfl

theorem newResult_ratio (text : String) (data : CompressData) :
    (newResult text data).ratio
      = some (calculatedRatio (orZero data.original_size) (orZero data.compressed_size)) :=
  rfl

theorem fl_large_quotient :
    fl (7999822507369 / 10289822506102) = 7002647060598384 / 2 ^ 53 := by
  have h := fl_eq_cert (7999822507369 / 10289822506102) (-1) 7002647060598384 (by norm_num)
    (by rw [abs_of_pos (by norm_num)]; norm_num)
    (by rw [abs_of_pos (by norm_num)]; norm_num)
    (by rw [abs_lt]; norm_num)
  rw [h]
  norm_num

theorem calculatedRatio_large :
    calculatedRatio 10289822506102 7999822507369 = fl (2226 / 100) := by
  have h1 : jsDiv 7999822507369 10289822506102 = 7002647060598384 / 2 ^ 53 :=
    fl_large_quotient
  have h2 : jsSub 1 (7002647060598384 / 2 ^ 53) = 2004552194142608 / 2 ^ 53 := by
    have h := fl_repr 2004552194142608 (-53) (by rw [abs_lt]; norm_num) (by norm_num)
    unfold jsSub
    have e : (1 : ℚ) - 7002647060598384 / 2 ^ 53
        = ((2004552194142608 : ℤ) : ℚ) * 2 ^ (-53 : ℤ) := by
      norm_num
    rw [e, h]
    norm_num
  have h3 : jsMul (2004552194142608 / 2 ^ 53) 100 = 6264225606695650 / 2 ^ 48 := by
    have h := fl_repr 6264225606695650 (-48) (by rw [abs_lt]; norm_num) (by norm_num)
    unfold jsMul
    have e : (2004552194142608 : ℚ) / 2 ^ 53 * 100
        = ((6264225606695650 : ℤ) : ℚ) * 2 ^ (-48 : ℤ) := by
      norm_num
    rw [e, h]
    norm_num
  have h4 : toFixed2 (6264225606695650 / 2 ^ 48) = 2226 / 100 := by
    unfold toFixed2
    rw [if_neg (by rw [abs_of_pos (by norm_num)]; norm_num), if_neg (by norm_num)]
    have : ⌊(6264225606695650 : ℚ) / 2 ^ 48 * 100 + 1 / 2⌋ = 2226 := by
      rw [Int.floor_eq_iff]
      constructor <;> norm_num
    rw [this]
    norm_num
  unfold calculatedRatio
  rw [if_pos (by norm_num), h1, h2, h3, h4]
  rfl

theorem fl_2225_100 : fl (2225 / 100) = 22.25 := by
  have h := fl_repr 89 (-2) (by rw [abs_lt]; norm_num) (by norm_num)
  have e : (2225 : ℚ) / 100 = ((89 : ℤ) : ℚ) * 2 ^ (-2 : ℤ) := by norm_num
  rw [e, h]
  norm_num

theorem fl_2226_100 : fl (2226 / 100) = 6265632981579203 / 2 ^ 48 := by
  have h := fl_eq_cert (2226 / 100) 4 6265632981579203 (by norm_num)
    (by rw [abs_of_pos (by norm_num)]; norm_num)
    (by rw [abs_of_pos (by norm_num)]; norm_num)
    (by rw [abs_lt]; norm_num)
  rw [h]
  norm_num

/-! ## The stored ratio -/

/-- C1 as stated fails. For sizes 160 and 159 the exact percentage is 0.625, which
rounds to 0.63, while the stored ratio is the number 0.62: the quotient 159/160 is
rounded up to binary64 first, so the computed percentage falls just below the tie.
For sizes 10289822506102 and 7999822507369 the stored ratio is 22.26 while the exact
percentage, which is not a tie, rounds to 22.25. -/
theorem ratio_differs_from_round2 :
    (newResult "hi" { compressed_b64 := some "KLUv", original_size := some 160,
                      compressed_size := some 159, compression_time_ms := some 3 }).ratio
      = some (fl (62 / 100)) ∧
    round2 ((1 - 159 / 160) * 100) = 63 / 100 ∧
    fl (62 / 100) ≠ fl (63 / 100) ∧
    (newResult "hi" { compressed_b64 := some "KLUv",
                      original_size := some 10289822506102,
                      compressed_size := some 7999822507369,
                      compression_time_ms := some 3 }).ratio
      = some (fl (2226 / 100)) ∧
    round2 ((1 - 7999822507369 / 10289822506102) * 100) = 2225 / 100 ∧
    fl (2226 / 100) ≠ fl (2225 / 100) := by
  refine ⟨?_, ?_, ?_, ?_, ?_, ?_⟩
  · rw [newResult_ratio, orZero_some, orZero_some, calculatedRatio_160_159]
  · unfold round2
    rw [if_neg (by norm_num)]
    have : ⌊((1 : ℚ) - 159 / 160) * 100 * 100 + 1 / 2⌋ = 63 := by
      rw [Int.floor_eq_iff]
      constructor <;> norm_num
    rw [this]
    norm_num
  · rw [fl_62_100, fl_63_100]
    norm_num
  · rw [newResult_ratio, orZero_some, orZero_some, calculatedRatio_large]
  · rw [round2_eq_of_near _ 2225 (by rw [abs_lt]; norm_num)]
    norm_num
  · rw [fl_2226_100, fl_2225_100]
    norm_num

/-- C1, amended: for a response whose sizes are integers `0 ≤ o, c < 2 ^ 32`, the
stored ratio is `0` when `o = 0`; and when `o > 0` and the exact percentage
`(1 - c / o) * 100` does not lie exactly halfway between two neighbouring two-decimal
values, the stored ratio is the number denoted by that percentage rounded to two
decimal places. -/
theorem ratio_off_ties (text : String) (b64 : Option String) (time : Option ℚ)
    (o c : ℕ) (ho2 : o < 2 ^ 32) (hc2 : c < 2 ^ 32) :
    (o = 0 →
      (newResult text { compressed_b64 := b64, original_size := some o,
                        compressed_size := some c, compression_time_ms := time }).ratio = some 0) ∧
    (0 < o → (¬ ∃ j : ℤ, (1 - (c : ℚ) / o) * 100 = (2 * j + 1) / 200) →
      (newResult text { compressed_b64 := b64, original_size := some o,
                        compressed_size := some c, compression_time_ms := time }).ratio
        = some (fl (round2 ((1 - (c : ℚ) / o) * 100)))) := by
  constructor
  · intro h0
    subst h0
    rw [newResult_ratio, orZero_some, orZero_some]
    simp [calculatedRatio]
  · intro ho htie
    rw [newResult_ratio, orZero_some, orZero_some]
    have hO : (o : ℚ) > 0 := by exact_mod_cast ho
    unfold calculatedRatio parseFloat
    rw [if_pos hO, toFixed2_ratio o c ho ho2 hc2 htie]

theorem ratio_off_ties_witness :
    (newResult "hello hello hello"
      { compressed_b64 := some "KLUv", original_size := some 17,
        compressed_size := some 10, compression_time_ms := some 3 }).ratio
      = some (fl (4118 / 100)) := by
  have h := (ratio_off_ties "hello hello hello" (some "KLUv") (some 3) 17 10
    (by norm_num) (by norm_num)).2 (by norm_num) (by
      rintro ⟨j, hj⟩
      have h1 : (17 : ℚ) * (2 * j + 1) = 140000 := by
        norm_num at hj
        linarith
      have h2 : (17 : ℤ) * (2 * j + 1) = 140000 := by exact_mod_cast h1
      omega)
  have e : round2 ((1 - ((10 : ℕ) : ℚ) / (17 : ℕ)) * 100) = 4118 / 100 := by
    rw [round2_eq_of_near _ 4118 (by rw [abs_lt]; norm_num)]
    norm_num
  rw [e] at h
  exact_mod_cast h

/-! ## Progress of the animation -/

theorem lastTick_le_iff (r : ℚ) (n : ℕ) : lastTick r ≤ n + 1 ↔ r ≤ ((n + 1 : ℕ) : ℚ) := by
  unfold lastTick
  rw [max_le_iff, Nat.ceil_le]
  constructor
  · exact fun h => h.2
  · exact fun h => ⟨Nat.succ_le_succ (Nat.zero_le n), h⟩

theorem jsAdd_one_natCast (n : ℕ) (h : n + 1 < 2 ^ 53) : jsAdd n 1 = ((n + 1 : ℕ) : ℚ) := by
  unfold jsAdd
  have e : (n : ℚ) + 1 = (((n + 1 : ℕ) : ℤ) : ℚ) := by push_cast; ring
  rw [e, fl_intCast]
  · push_cast; ring
  · rw [abs_of_nonneg (by positivity)]
    exact_mod_cast h

theorem Animating.fire {id : ℕ} {r a0 : ℚ} {n : ℕ} {w : World}
    (h : Animating id r a0 n w) (hr : r ≤ 2 ^ 52) :
    Animating id r a0 (n + 1) (App.tick id w) := by
  unfold Animating at h ⊢
  by_cases hn : n < lastTick r
  · rw [if_pos hn] at h
    obtain ⟨ht, -⟩ := h
    have hN : lastTick r < 2 ^ 53 := by
      unfold lastTick
      have h1 : ⌈r⌉₊ ≤ 2 ^ 52 := Nat.ceil_le.mpr (by exact_mod_cast hr)
      have h2 : (2 : ℕ) ^ 52 < 2 ^ 53 := by norm_num
      have h3 : 1 < 2 ^ 53 := by norm_num
      exact max_lt h3 (lt_of_le_of_lt h1 h2)
    have hadd : jsAdd n 1 = ((n + 1 : ℕ) : ℚ) := jsAdd_one_natCast n (by omega)
    have hf : w.timers.find? (fun t => t.id == id)
        = some { id := id, start := n, newRatio := r } := by
      simp [ht]
    unfold App.tick
    simp only [hf, hadd]
    by_cases hge : ((n + 1 : ℕ) : ℚ) ≥ r
    · rw [if_pos hge, if_neg (not_lt.mpr ((lastTick_le_iff r n).mpr hge))]
      simp [setAnimatedRatio, clearInterval, ht]
    · rw [if_neg hge, if_pos (not_le.mp (fun hc => hge ((lastTick_le_iff r n).mp hc)))]
      simp [setAnimatedRatio, ht]
  · rw [if_neg hn] at h
    rw [if_neg (by omega)]
    obtain ⟨ht, ha⟩ := h
    have hf : w.timers.find? (fun t => t.id == id) = none := by simp [ht]
    unfold App.tick
    simp only [hf]
    exact ⟨ht, ha⟩

theorem Animating.fire_other {id : ℕ} {r a0 : ℚ} {n : ℕ} {w : World}
    (h : Animating id r a0 n w) (i : ℕ) (hi : i ≠ id) :
    Animating id r a0 n (App.tick i w) := by
  have hf : w.timers.find? (fun t => t.id == i) = none := by
    unfold Animating at h
    by_cases hn : n < lastTick r
    · rw [if_pos hn] at h
      simp [h.1, Ne.symm hi]
    · rw [if_neg hn] at h
      simp [h.1]
  unfold App.tick
  simp only [hf]
  exact h

theorem Animating.congr {id : ℕ} {r a0 : ℚ} {n : ℕ} {w w2 : World}
    (h : Animating id r a0 n w) (ht : w2.timers = w.timers)
    (ha : w2.ui.animatedRatio = w.ui.animatedRatio) : Animating id r a0 n w2 := by
  unfold Animating at h ⊢
  rw [ht, ha]
  exact h

theorem handleDecompress_anim (w : World) :
    (handleDecompress w).timers = w.timers ∧
    (handleDecompress w).ui.animatedRatio = w.ui.animatedRatio := by
  unfold handleDecompress
  split
  · exact ⟨rfl, rfl⟩
  · split <;> exact ⟨rfl, rfl⟩

theorem Animating.advance {id : ℕ} {r a0 : ℚ} {n : ℕ} {w : World}
    (h : Animating id r a0 n w) (hr : r ≤ 2 ^ 52) (e : Event)
    (he : storesNothing w e = true) :
    Animating id r a0 (n + firings id [e]) (App.step w e) := by
  cases e with
  | type s => exact h.congr rfl rfl
  | clickCompress =>
    simp only [storesNothing, Bool.or_eq_true, decide_eq_true_eq] at he
    simp only [App.step, firings]
    by_cases hl : w.ui.isLoading = true
    · rw [if_pos hl]
      exact h
    · rw [if_neg hl]
      have hb : jsTrim w.ui.text ≠ "" := he.resolve_left hl
      unfold handleCompress
      rw [if_neg hb]
      exact h.congr rfl rfl
  | clickDecompress =>
    simp only [App.step, firings]
    split
    · exact h
    · exact h.congr (handleDecompress_anim w).1 (handleDecompress_anim w).2
  | compressReply i reply =>
    simp only [storesNothing, Option.isNone_iff_eq_none] at he
    simp only [App.step, firings, he]
    exact h
  | decompressReply reply =>
    simp only [App.step, firings]
    split
    · exact h
    · unfold handleDecompressReply
      split <;> exact h.congr rfl rfl
  | timerFires i =>
    simp only [App.step, firings]
    by_cases hi : i = id
    · subst hi
      simpa using h.fire hr
    · simpa [hi] using h.fire_other i hi

theorem firings_cons (id : ℕ) (e : Event) (es : List Event) :
    firings id (e :: es) = firings id [e] + firings id es := by
  cases e <;> simp [firings]

theorem Animating.advance_all {id : ℕ} {r a0 : ℚ} (hr : r ≤ 2 ^ 52) (es : List Event) :
    ∀ {n : ℕ} {w : World}, Animating id r a0 n w → staysCurrent w es = true →
      Animating id r a0 (n + firings id es) (App.run w es) := by
  induction es with
  | nil => intro n w h _; exact h
  | cons e es ih =>
    intro n w h hq
    simp only [staysCurrent, Bool.and_eq_true] at hq
    have h1 := ih (h.advance hr e hq.1) hq.2
    rw [firings_cons, ← Nat.add_assoc]
    exact h1

/-! ## Range of the ratio -/

theorem fl_le_one {x : ℚ} (h : x ≤ 1) : fl x ≤ 1 := by
  rcases le_total 0 x with h0 | h0
  · have := fl_le_repr x 1 0 (by rw [abs_lt]; norm_num) (by norm_num) h0 (by simpa using h)
    simpa using this
  · exact (fl_nonpos h0).trans (by norm_num)

theorem fl_le_hundred {x : ℚ} (h : x ≤ 100) : fl x ≤ 100 := by
  rcases le_total 0 x with h0 | h0
  · have := fl_le_repr x 100 0 (by rw [abs_lt]; norm_num) (by norm_num) h0 (by simpa using h)
    simpa using this
  · exact (fl_nonpos h0).trans (by norm_num)

theorem toFixed2_le_hundred {x : ℚ} (h : x ≤ 100) : toFixed2 x ≤ 100 := by
  unfold toFixed2
  split_ifs with h1 h2
  · exact h
  · have hf : (0 : ℤ) ≤ ⌊-x * 100 + 1 / 2⌋ := Int.floor_nonneg.mpr (by linarith)
    have hq : (0 : ℚ) ≤ (⌊-x * 100 + 1 / 2⌋ : ℤ) := by exact_mod_cast hf
    have : -((⌊-x * 100 + 1 / 2⌋ : ℤ) : ℚ) / 100 ≤ 0 := by
      apply div_nonpos_of_nonpos_of_nonneg <;> linarith
    linarith
  · have hf : ⌊x * 100 + 1 / 2⌋ ≤ 10000 := by
      have : ⌊x * 100 + 1 / 2⌋ < 10001 := Int.floor_lt.mpr (by push_cast; linarith)
      omega
    have hq : ((⌊x * 100 + 1 / 2⌋ : ℤ) : ℚ) ≤ 10000 := by exact_mod_cast hf
    rw [div_le_iff₀ (by norm_num)]
    linarith

/-- With a compressed size that is not negative the ratio never exceeds 100. -/
theorem calculatedRatio_le_hundred (o c : ℚ) (hc : 0 ≤ c) : calculatedRatio o c ≤ 100 := by
  unfold calculatedRatio
  split_ifs with ho
  · have ha : 0 ≤ jsDiv c o := fl_nonneg (div_nonneg hc ho.le)
    have hb : jsSub 1 (jsDiv c o) ≤ 1 := fl_le_one (by linarith)
    have hp : jsMul (jsSub 1 (jsDiv c o)) 100 ≤ 100 := fl_le_hundred (by linarith)
    exact fl_le_hundred (toFixed2_le_hundred hp)
  · norm_num

/-! ## Arrival of a successful outcome -/

theorem arrival_eq (w : World) (text : String) (hin : w.inflightCompress = [text])
    (data : CompressData) :
    arrival w data
      = setIsLoading false (setDecompressed (some "")
          (setLastResult (newResult text data) { w with inflightCompress := [] })) := by
  simp [arrival, step, hin, handleCompressReply]

theorem arrival_facts (w : World) (hw : Inv w) (text : String)
    (hin : w.inflightCompress = [text]) (data : CompressData) :
    (arrival w data).timers
      = [{ id := w.nextTimerId, start := 0, newRatio := ratioOf data }] ∧
    (arrival w data).ui.animatedRatio = w.ui.animatedRatio ∧
    (arrival w data).ui.lastResult = some (newResult text data) ∧
    (arrival w data).ui.text = w.ui.text ∧
    (arrival w data).ui.isLoading = false ∧
    (arrival w data).inflightCompress = [] := by
  rw [arrival_eq w text hin data]
  have key := runEffect_armed
    { ({ w with inflightCompress := [] } : World) with
      ui := { w.ui with lastResult := some (newResult text data) } }
    (ratioOf data) hw.timers rfl
  obtain ⟨h1, -, -, h4⟩ := key
  refine ⟨h1, h4, ?_, ?_, rfl, ?_⟩
  · simp [setIsLoading, setDecompressed, setLastResult]
  · simp [setIsLoading, setDecompressed, setLastResult]
  · simp [setIsLoading, setDecompressed, setLastResult]

theorem arrival_animating (w : World) (hw : Inv w) (text : String)
    (hin : w.inflightCompress = [text]) (data : CompressData) :
    Animating w.nextTimerId (ratioOf data) w.ui.animatedRatio 0 (arrival w data) := by
  obtain ⟨h1, h2, -⟩ := arrival_facts w hw text hin data
  unfold Animating
  have h0 : 0 < lastTick (ratioOf data) := by
    unfold lastTick
    exact lt_of_lt_of_le Nat.zero_lt_one (le_max_left _ _)
  rw [if_pos h0]
  exact ⟨by simpa using h1, by simpa using h2⟩

theorem firings_append (id : ℕ) (es es2 : List Event) :
    firings id (es ++ es2) = firings id es + firings id es2 := by
  induction es with
  | nil => simp [firings]
  | cons e es ih =>
    rw [List.cons_append, firings_cons, ih, firings_cons id e es, Nat.add_assoc]

theorem staysCurrent_append (w : World) (es es2 : List Event)
    (h : staysCurrent w (es ++ es2) = true) : staysCurrent w es = true := by
  induction es generalizing w with
  | nil => rfl
  | cons e es ih =>
    simp only [List.cons_append, staysCurrent, Bool.and_eq_true] at h ⊢
    exact ⟨h.1, ih _ h.2⟩

/-- Value of `animatedRatio` after `n ≥ 1` firings. -/
theorem Animating.value {id : ℕ} {r a0 : ℚ} {n : ℕ} {w : World}
    (h : Animating id r a0 n w) (hn : 1 ≤ n) : w.ui.animatedRatio = min (n : ℚ) r := by
  unfold Animating at h
  by_cases hlt : n < lastTick r
  · rw [if_pos hlt, if_neg (by omega)] at h
    have h1 : n < ⌈r⌉₊ := by
      unfold lastTick at hlt
      rcases lt_max_iff.mp hlt with h2 | h2
      · omega
      · exact h2
    have h2 : (n : ℚ) < r := Nat.lt_ceil.mp h1
    rw [h.2, min_eq_left h2.le]
  · rw [if_neg hlt] at h
    have h1 : ⌈r⌉₊ ≤ n := le_trans (le_max_right _ _) (not_lt.mp hlt)
    have h2 : r ≤ n := Nat.ceil_le.mp h1
    rw [h.2, min_eq_right h2]

/-! ## The animation of a stored ratio -/

/-- C10: when the reply to the awaited compress call arrives with a compressed size
that is not negative, the ratio `r` it stores drives one interval; as long as no new
`lastResult` is stored, after `n` firings of that interval with `n` below
`lastTick r = max 1 ⌈r⌉` the interval is still armed and its counter is `n` (each
firing adds one), and from `lastTick r` firings on the interval is gone and
`animatedRatio` is exactly `r`, whatever fires or happens afterwards. `lastTick r` is
the first tick whose counter reaches `r`. -/
theorem animation_stops (w : World) (hw : Reachable w) (text : String)
    (hin : w.inflightCompress = [text]) (data : CompressData)
    (hc : 0 ≤ orZero data.compressed_size) (es : List Event)
    (hes : staysCurrent (arrival w data) es = true) :
    (arrival w data).ui.lastResult.bind (·.ratio) = some (ratioOf data) ∧
    (firings w.nextTimerId es < lastTick (ratioOf data) →
      (run (arrival w data) es).timers
        = [{ id := w.nextTimerId, start := firings w.nextTimerId es,
             newRatio := ratioOf data }]) ∧
    (lastTick (ratioOf data) ≤ firings w.nextTimerId es →
      (run (arrival w data) es).timers = [] ∧
      (run (arrival w data) es).ui.animatedRatio = ratioOf data) ∧
    ratioOf data ≤ lastTick (ratioOf data) ∧
    ∀ n : ℕ, 1 ≤ n → n < lastTick (ratioOf data) → (n : ℚ) < ratioOf data := by
  have hi := hw.inv
  have hr100 : ratioOf data ≤ 100 := calculatedRatio_le_hundred _ _ hc
  have hr : ratioOf data ≤ 2 ^ 52 := hr100.trans (by norm_num)
  have ha := (arrival_animating w hi text hin data).advance_all hr es hes
  rw [Nat.zero_add] at ha
  unfold Animating at ha
  refine ⟨?_, ?_, ?_, ?_, ?_⟩
  · rw [(arrival_facts w hi text hin data).2.2.1]
    rfl
  · intro hlt
    rw [if_pos hlt] at ha
    exact ha.1
  · intro hge
    rw [if_neg (not_lt.mpr hge)] at ha
    exact ha
  · unfold lastTick
    exact (Nat.le_ceil _).trans (by exact_mod_cast le_max_right 1 ⌈ratioOf data⌉₊)
  · intro n h1 hlt
    unfold lastTick at hlt
    rcases lt_max_iff.mp hlt with h2 | h2
    · omega
    · exact Nat.lt_ceil.mp h2

/-- C9, amended: when the reply to the awaited compress call stores a ratio `r ≥ 0`
(compressed size not negative), then as long as no new `lastResult` is stored, after
`n ≥ 1` firings of the interval `animatedRatio` is `min n r`, hence within `[0, r]`
and never above `r`; and from the first firing on it never decreases. -/
theorem displayed_ratio_bounds (w : World) (hw : Reachable w) (text : String)
    (hin : w.inflightCompress = [text]) (data : CompressData)
    (hc : 0 ≤ orZero data.compressed_size) (hr0 : 0 ≤ ratioOf data)
    (es es2 : List Event)
    (hes : staysCurrent (arrival w data) (es ++ es2) = true) :
    (1 ≤ firings w.nextTimerId es →
      (run (arrival w data) es).ui.animatedRatio
        = min (firings w.nextTimerId es : ℚ) (ratioOf data) ∧
      0 ≤ (run (arrival w data) es).ui.animatedRatio ∧
      (run (arrival w data) es).ui.animatedRatio ≤ ratioOf data) ∧
    (1 ≤ firings w.nextTimerId es →
      (run (arrival w data) es).ui.animatedRatio
        ≤ (run (arrival w data) (es ++ es2)).ui.animatedRatio) := by
  have hi := hw.inv
  have hr100 : ratioOf data ≤ 100 := calculatedRatio_le_hundred _ _ hc
  have hr : ratioOf data ≤ 2 ^ 52 := hr100.trans (by norm_num)
  have h0 := arrival_animating w hi text hin data
  have ha := h0.advance_all hr es (staysCurrent_append _ es es2 hes)
  have hb := h0.advance_all hr (es ++ es2) hes
  rw [Nat.zero_add] at ha hb
  refine ⟨?_, ?_⟩
  · intro h1
    have hv := ha.value h1
    refine ⟨hv, ?_, ?_⟩
    · rw [hv]
      exact le_min (by positivity) hr0
    · rw [hv]
      exact min_le_right _ _
  · intro h1
    have h2 : 1 ≤ firings w.nextTimerId (es ++ es2) := by
      rw [firings_append]
      omega
    rw [ha.value h1, hb.value h2, firings_append]
    apply min_le_min_right
    push_cast
    linarith [show (0 : ℚ) ≤ (firings w.nextTimerId es2 : ℚ) from by positivity]

/-! ## Concrete sessions -/

theorem fl_of_repr (x : ℚ) (m j : ℤ) (hx : x = m * (2 : ℚ) ^ j) (hm : |(m : ℚ)| < 2 ^ 53)
    (hj : -1074 ≤ j) : fl x = x := by
  rw [hx]
  exact fl_repr m j hm hj

theorem calculatedRatio_2_11 : calculatedRatio 2 11 = -450 := by
  have h1 : jsDiv 11 2 = 11 / 2 :=
    fl_of_repr _ 11 (-1) (by norm_num) (by rw [abs_lt]; norm_num) (by norm_num)
  have h2 : jsSub 1 (11 / 2) = -9 / 2 := by
    have := fl_of_repr ((1 : ℚ) - 11 / 2) (-9) (-1) (by norm_num) (by rw [abs_lt]; norm_num)
      (by norm_num)
    unfold jsSub
    rw [this]
    norm_num
  have h3 : jsMul (-9 / 2) 100 = -450 := by
    have := fl_of_repr ((-9 : ℚ) / 2 * 100) (-450) 0 (by norm_num) (by rw [abs_lt]; norm_num)
      (by norm_num)
    unfold jsMul
    rw [this]
    norm_num
  have h4 : toFixed2 (-450) = -450 := by
    unfold toFixed2
    rw [if_neg (by rw [abs_of_neg (by norm_num)]; norm_num), if_pos (by norm_num)]
    have : ⌊(-(-450 : ℚ)) * 100 + 1 / 2⌋ = 45000 := by
      rw [Int.floor_eq_iff]
      constructor <;> norm_num
    rw [this]
    norm_num
  have h5 : parseFloat (-450) = -450 :=
    fl_of_repr _ (-450) 0 (by norm_num) (by rw [abs_lt]; norm_num) (by norm_num)
  unfold calculatedRatio
  rw [if_pos (by norm_num), h1, h2, h3, h4, h5]

theorem calculatedRatio_4_3 : calculatedRatio 4 3 = 25 := by
  have h1 : jsDiv 3 4 = 3 / 4 :=
    fl_of_repr _ 3 (-2) (by norm_num) (by rw [abs_lt]; norm_num) (by norm_num)
  have h2 : jsSub 1 (3 / 4) = 1 / 4 := by
    have := fl_of_repr ((1 : ℚ) - 3 / 4) 1 (-2) (by norm_num) (by rw [abs_lt]; norm_num)
      (by norm_num)
    unfold jsSub
    rw [this]
    norm_num
  have h3 : jsMul (1 / 4) 100 = 25 := by
    have := fl_of_repr ((1 : ℚ) / 4 * 100) 25 0 (by norm_num) (by rw [abs_lt]; norm_num)
      (by norm_num)
    unfold jsMul
    rw [this]
    norm_num
  have h4 : toFixed2 25 = 25 := by
    unfold toFixed2
    rw [if_neg (by rw [abs_of_pos (by norm_num)]; norm_num), if_neg (by norm_num)]
    have : ⌊(25 : ℚ) * 100 + 1 / 2⌋ = 2500 := by
      rw [Int.floor_eq_iff]
      constructor <;> norm_num
    rw [this]
    norm_num
  have h5 : parseFloat 25 = 25 :=
    fl_of_repr _ 25 0 (by norm_num) (by rw [abs_lt]; norm_num) (by norm_num)
  unfold calculatedRatio
  rw [if_pos (by norm_num), h1, h2, h3, h4, h5]

theorem calculatedRatio_1_1 : calculatedRatio 1 1 = 0 := by
  have h1 : jsDiv 1 1 = 1 := by
    have := fl_of_repr ((1 : ℚ) / 1) 1 0 (by norm_num) (by rw [abs_lt]; norm_num)
      (by norm_num)
    unfold jsDiv
    rw [this]
    norm_num
  have h2 : jsSub 1 1 = 0 := by
    unfold jsSub
    rw [sub_self, fl_zero]
  have h3 : jsMul 0 100 = 0 := by
    unfold jsMul
    rw [zero_mul, fl_zero]
  have h4 : toFixed2 0 = 0 := by
    unfold toFixed2
    rw [if_neg (by norm_num), if_neg (by norm_num)]
    have : ⌊(0 : ℚ) * 100 + 1 / 2⌋ = 0 := by
      rw [Int.floor_eq_iff]
      constructor <;> norm_num
    rw [this]
    norm_num
  unfold calculatedRatio
  rw [if_pos (by norm_num), h1, h2, h3, h4]
  exact fl_zero

theorem calculatedRatio_17_10 : calculatedRatio 17 10 = 5795569770472407 / 2 ^ 47 := by
  have htie : ¬ ∃ j : ℤ, (1 - ((10 : ℕ) : ℚ) / (17 : ℕ)) * 100 = (2 * j + 1) / 200 := by
    rintro ⟨j, hj⟩
    have h1 : (17 : ℚ) * (2 * j + 1) = 140000 := by
      norm_num at hj
      linarith
    have h2 : (17 : ℤ) * (2 * j + 1) = 140000 := by exact_mod_cast h1
    omega
  have h := toFixed2_ratio 17 10 (by norm_num) (by norm_num) (by norm_num) htie
  have e : round2 ((1 - ((10 : ℕ) : ℚ) / (17 : ℕ)) * 100) = 4118 / 100 := by
    rw [round2_eq_of_near _ 4118 (by rw [abs_lt]; norm_num)]
    norm_num
  rw [e] at h
  have hf : fl (4118 / 100) = 5795569770472407 / 2 ^ 47 := by
    have h := fl_eq_cert (4118 / 100) 5 5795569770472407 (by norm_num)
      (by rw [abs_of_pos (by norm_num)]; norm_num)
      (by rw [abs_of_pos (by norm_num)]; norm_num)
      (by rw [abs_lt]; norm_num)
    rw [h]
    norm_num
  unfold calculatedRatio parseFloat
  rw [if_pos (by norm_num)]
  have h' : toFixed2 (jsMul (jsSub 1 (jsDiv 10 17)) 100) = 4118 / 100 := by
    exact_mod_cast h
  rw [h', hf]

theorem lastTick_17_10 : lastTick (5795569770472407 / 2 ^ 47) = 42 := by
  unfold lastTick
  have : ⌈(5795569770472407 : ℚ) / 2 ^ 47⌉₊ = 42 := by
    rw [Nat.ceil_eq_iff (by norm_num)]
    constructor <;> norm_num
  rw [this]
  rfl

theorem staysCurrent_replicate (id n : ℕ) (w : World) :
    staysCurrent w (List.replicate n (.timerFires id)) = true := by
  induction n generalizing w with
  | zero => rfl
  | succ n ih =>
    rw [List.replicate_succ]
    simp only [staysCurrent, storesNothing, Bool.true_and]
    exact ih _

theorem firings_replicate (id n : ℕ) :
    firings id (List.replicate n (.timerFires id)) = n := by
  induction n with
  | zero => rfl
  | succ n ih =>
    rw [List.replicate_succ]
    simp only [firings, if_true]
    omega

theorem tick_text (id : ℕ) (w : World) : (tick id w).ui.text = w.ui.text := by
  unfold tick
  split
  · rfl
  · dsimp only
    split <;> rfl

theorem awaitingReply_reachable : Reachable awaitingReply := ⟨_, rfl⟩

theorem ratioOf_shrunk : ratioOf shrunk = 5795569770472407 / 2 ^ 47 := by
  unfold ratioOf shrunk
  rw [orZero_some, orZero_some, calculatedRatio_17_10]

theorem ratioOf_grown : ratioOf grown = -450 := by
  unfold ratioOf grown
  rw [orZero_some, orZero_some, calculatedRatio_2_11]

theorem ratioOf_quarter : ratioOf quarter = 25 := by
  unfold ratioOf quarter
  rw [orZero_some, orZero_some, calculatedRatio_4_3]

theorem ratioOf_unchanged : ratioOf unchanged = 0 := by
  unfold ratioOf unchanged
  rw [orZero_some, calculatedRatio_1_1]

theorem animation_stops_witness :
    (run (arrival awaitingReply shrunk) (List.replicate 42 (.timerFires 1))).timers = [] ∧
    (run (arrival awaitingReply shrunk) (List.replicate 42 (.timerFires 1))).ui.animatedRatio
      = ratioOf shrunk ∧
    (run (arrival awaitingReply shrunk) (List.replicate 41 (.timerFires 1))).timers
      = [{ id := 1, start := 41, newRatio := ratioOf shrunk }] :=
  have hc : 0 ≤ orZero shrunk.compressed_size := by
    unfold shrunk
    rw [orZero_some]
    norm_num
  have h42 := (animation_stops awaitingReply awaitingReply_reachable "hi" rfl shrunk hc
    (List.replicate 42 (.timerFires 1)) (staysCurrent_replicate 1 42 _)).2.2.1
    (by rw [ratioOf_shrunk, lastTick_17_10]; exact (firings_replicate 1 42).ge)
  have h41 := (animation_stops awaitingReply awaitingReply_reachable "hi" rfl shrunk hc
    (List.replicate 41 (.timerFires 1)) (staysCurrent_replicate 1 41 _)).2.1
    (by rw [ratioOf_shrunk, lastTick_17_10]
        exact lt_of_le_of_lt (firings_replicate 1 41).le (by norm_num))
  ⟨h42.1, h42.2, by
    have e : firings awaitingReply.nextTimerId (List.replicate 41 (.timerFires 1)) = 41 :=
      firings_replicate 1 41
    rw [e] at h41
    exact_mod_cast h41⟩

theorem displayed_ratio_bounds_witness :
    0 ≤ (run (arrival awaitingReply shrunk) [.timerFires 1, .type "hi!", .timerFires 1]
      ).ui.animatedRatio ∧
    (run (arrival awaitingReply shrunk) [.timerFires 1, .type "hi!", .timerFires 1]
      ).ui.animatedRatio ≤ ratioOf shrunk ∧
    (run (arrival awaitingReply shrunk) [.timerFires 1, .type "hi!", .timerFires 1]
      ).ui.animatedRatio
      ≤ (run (arrival awaitingReply shrunk)
          ([.timerFires 1, .type "hi!", .timerFires 1] ++ [.clickDecompress, .timerFires 1])
        ).ui.animatedRatio :=
  have hc : 0 ≤ orZero shrunk.compressed_size := by
    unfold shrunk
    rw [orZero_some]
    norm_num
  have hr : 0 ≤ ratioOf shrunk := by
    rw [ratioOf_shrunk]
    norm_num
  have h := displayed_ratio_bounds awaitingReply awaitingReply_reachable "hi" rfl shrunk hc hr
    [.timerFires 1, .type "hi!", .timerFires 1] [.clickDecompress, .timerFires 1] rfl
  have h1 : 1 ≤ firings awaitingReply.nextTimerId
      [.timerFires 1, .type "hi!", .timerFires 1] := by decide
  ⟨(h.1 h1).2.1, (h.1 h1).2.2, h.2 h1⟩

theorem secondCall_facts :
    Reachable secondCall ∧ secondCall.inflightCompress = ["hi"] ∧
    secondCall.ui.animatedRatio = 1 := by
  have hi := awaitingReply_reachable.inv
  obtain ⟨-, -, -, f4, f5, f6⟩ := arrival_facts awaitingReply hi "hi" rfl quarter
  have ha := (arrival_animating awaitingReply hi "hi" rfl quarter).advance_all
    (by rw [ratioOf_quarter]; norm_num) [.timerFires 1] rfl
  have hlt : 0 + firings awaitingReply.nextTimerId [.timerFires 1]
      < lastTick (ratioOf quarter) := by
    rw [ratioOf_quarter]
    unfold lastTick
    have : ⌈(25 : ℚ)⌉₊ = 25 := by exact_mod_cast Nat.ceil_natCast 25
    rw [this]
    decide
  unfold Animating at ha
  rw [if_pos hlt] at ha
  have hval : (step (arrival awaitingReply quarter) (.timerFires 1)).ui.animatedRatio = 1 := by
    have := ha.2
    rw [if_neg (by decide)] at this
    rw [show run (arrival awaitingReply quarter) [.timerFires 1]
      = step (arrival awaitingReply quarter) (.timerFires 1) from rfl] at this
    rw [this]
    norm_num [firings]
    rfl
  have hstep := clickCompress_nonblank (step (arrival awaitingReply quarter) (.timerFires 1))
    (by show (tick 1 _).inflightCompress = []; rw [tick_inflightCompress, f6])
    (by show (tick 1 _).ui.isLoading = false; rw [tick_isLoading, f5])
    (by show jsTrim (tick 1 _).ui.text ≠ ""; rw [tick_text, f4]; decide)
  refine ⟨⟨[.type "hi", .clickCompress, .compressReply 0 (.ok quarter), .timerFires 1,
    .clickCompress], rfl⟩, ?_, ?_⟩
  · unfold secondCall
    rw [hstep]
    show [(tick 1 _).ui.text] = ["hi"]
    rw [tick_text, f4]
    rfl
  · unfold secondCall
    rw [hstep]
    exact hval

/-- C9 as stated fails. When 2 bytes compress to 11, the stored ratio is -450; on its
arrival `animatedRatio` is 0 and the first firing of the interval sets it to -450,
below 0 and below its previous value. And when a ratio of 0 arrives while the display
of an earlier ratio has reached 1, `animatedRatio` is still 1 on arrival, above the
current ratio. -/
theorem displayed_ratio_leaves_range :
    (arrival awaitingReply grown).ui.lastResult.bind (·.ratio) = some (-450) ∧
    (arrival awaitingReply grown).ui.animatedRatio = 0 ∧
    (step (arrival awaitingReply grown) (.timerFires 1)).ui.animatedRatio = -450 ∧
    (arrival secondCall unchanged).ui.lastResult.bind (·.ratio) = some 0 ∧
    (arrival secondCall unchanged).ui.animatedRatio = 1 := by
  have hi := awaitingReply_reachable.inv
  obtain ⟨-, g2, g3, -⟩ := arrival_facts awaitingReply hi "hi" rfl grown
  obtain ⟨hr, hin, hval⟩ := secondCall_facts
  obtain ⟨-, u2, u3, -⟩ := arrival_facts secondCall hr.inv "hi" hin unchanged
  refine ⟨?_, ?_, ?_, ?_, ?_⟩
  · rw [g3]
    show some (ratioOf grown) = _
    rw [ratioOf_grown]
  · rw [g2]
    rfl
  · have ha := (arrival_animating awaitingReply hi "hi" rfl grown).advance_all
      (by rw [ratioOf_grown]; norm_num) [.timerFires 1] rfl
    have hge : ¬ (0 + firings awaitingReply.nextTimerId [.timerFires 1]
        < lastTick (ratioOf grown)) := by
      rw [ratioOf_grown]
      unfold lastTick
      have : ⌈(-450 : ℚ)⌉₊ = 0 := Nat.ceil_eq_zero.mpr (by norm_num)
      rw [this]
      decide
    unfold Animating at ha
    rw [if_neg hge, ratioOf_grown] at ha
    exact ha.2
  · rw [u3]
    show some (ratioOf unchanged) = _
    rw [ratioOf_unchanged]
  · rw [u2, hval]

end App
